import Mathlib

/-!
Shallow embedding of the two notifier scripts of this repository,
`patreon_notifier.py` and `discord_notifier.py`.

Post identifiers are numeric strings in the source; they are modelled as
`Nat`.  The persisted seen-sets (`patreon_notified_ids.json`,
`notified_ids.json`) are modelled as `Finset Nat`.  The outcome of
`send_discord_notification` (an HTTP POST) is modelled by an oracle
`ok : String → Nat → Bool` giving, for a webhook url and a post id, whether
the POST succeeds with a 2xx response; each call is recorded in a `Delivery`
log entry.  Fixed sleeps and console printing are dropped: they do not touch
state.
-/

namespace Notifier

/-- A fetched membership-site (Patreon) post: numeric id, publish time
converted to KST as an `(hour, minute)` pair (`none` models an empty
`published_at` attribute), and the list of tier ids attached to the post. -/
structure PPost where
  id : Nat
  pubKst : Option (Nat × Nat)
  tiers : List Nat
deriving DecidableEq

/-- The environment-provided configuration read in `PatreonNotifier.__init__`:
the two tier ids and the two destination webhooks, each possibly unset. -/
structure PConfig where
  targetTierId : Option Nat
  lowestTierId : Option Nat
  webhookGourmet : Option String
  webhookPublic : Option String
deriving DecidableEq

/-- One webhook POST attempt made by `send_discord_notification`:
destination url, post id the message was built from, and whether the
request succeeded (2xx). -/
structure Delivery where
  dest : String
  pid : Nat
  ok : Bool
deriving DecidableEq

/-- Accumulator of the per-post notify loops: the in-memory seen-set and the
log of webhook attempts made so far. -/
structure NotifyAcc where
  seen : Finset Nat
  log : List Delivery
deriving DecidableEq

/-- One iteration of a notify loop (the `for post in ...` bodies): on a
first run the id is marked seen with no network call; otherwise a webhook
POST is attempted and the id is marked seen only on success. -/
def notifyStep (u : String) (fr : Bool) (ok : String → Nat → Bool)
    (a : NotifyAcc) (i : Nat) : NotifyAcc :=
  if fr then { a with seen := insert i a.seen }
  else if ok u i then ⟨insert i a.seen, a.log ++ [⟨u, i, true⟩]⟩
  else { a with log := a.log ++ [⟨u, i, false⟩] }

/-- A whole notify loop over a list of post ids. -/
def notifyRun (u : String) (fr : Bool) (ok : String → Nat → Bool)
    (seen : Finset Nat) (pids : List Nat) : NotifyAcc :=
  pids.foldl (notifyStep u fr ok) ⟨seen, []⟩

/-- The maintenance-window test of `check_new_posts` lines 124-128: the
publish time, in KST, is 20:30 or 20:31 (an empty `published_at` skips the
test). -/
def isMaint (p : PPost) : Bool :=
  match p.pubKst with
  | none => false
  | some (h, m) => h == 20 && (m == 30 || m == 31)

/-- Result of the classification loop of `check_new_posts` lines 120-140:
the (possibly grown) seen-set and the two tier branch lists
`gourmet_posts` / `public_posts`, in append order. -/
structure Phase1 where
  seen : Finset Nat
  gourmet : List PPost
  pubPosts : List PPost
deriving DecidableEq

/-- Line 136: `self.target_tier_id and int(self.target_tier_id) in tiers`
(an unset tier id is falsy). -/
def tierGourmet (cfg : PConfig) (p : PPost) : Bool :=
  match cfg.targetTierId with
  | some t => p.tiers.contains t
  | none => false

/-- Line 139: `len(tiers) == 0 or (self.lowest_tier_id and
int(self.lowest_tier_id) in tiers)`. -/
def tierPublic (cfg : PConfig) (p : PPost) : Bool :=
  p.tiers.isEmpty ||
    (match cfg.lowestTierId with
     | some t => p.tiers.contains t
     | none => false)

/-- One iteration of the classification loop (lines 120-140): skip posts
already seen; mark maintenance-window posts seen and drop them; otherwise
classify into the gourmet branch first, then the public branch, else drop. -/
def classifyStep (cfg : PConfig) (s : Phase1) (p : PPost) : Phase1 :=
  if p.id ∈ s.seen then s
  else if isMaint p then { s with seen := insert p.id s.seen }
  else if tierGourmet cfg p then { s with gourmet := s.gourmet ++ [p] }
  else if tierPublic cfg p then { s with pubPosts := s.pubPosts ++ [p] }
  else s

/-- The full classification loop over the fetched posts. -/
def phase1 (cfg : PConfig) (seen0 : Finset Nat) (posts : List PPost) : Phase1 :=
  posts.foldl (classifyStep cfg) ⟨seen0, [], []⟩

/-- One tier branch's notify block (lines 142-158 and 160-176): it runs only
when the branch list is nonempty and the branch webhook is set; otherwise
the seen-set is left alone and no POST is attempted. -/
def branchStage (w : Option String) (fr : Bool) (ok : String → Nat → Bool)
    (seen : Finset Nat) (branch : List PPost) : NotifyAcc :=
  match w with
  | some u =>
      if branch.isEmpty then ⟨seen, []⟩
      else notifyRun u fr ok seen (branch.map PPost.id)
  | none => ⟨seen, []⟩

/-- Outcome of one `check_new_posts` invocation: the in-memory seen-set, the
content of the persisted file after the run (`save_notified_ids` is called
only when a branch list is nonempty, line 178; otherwise the file keeps the
set it was loaded from), and the log of webhook attempts. -/
structure PResult where
  mem : Finset Nat
  disk : Finset Nat
  log : List Delivery
deriving DecidableEq

/-- `PatreonNotifier.check_new_posts` (lines 106-181), for a given fetch
result `posts`, loaded seen-set `seen0` and first-run flag `fr`. -/
def check_new_posts (cfg : PConfig) (fr : Bool) (ok : String → Nat → Bool)
    (posts : List PPost) (seen0 : Finset Nat) : PResult :=
  let s1 := phase1 cfg seen0 posts
  let g := branchStage cfg.webhookGourmet fr ok s1.seen s1.gourmet
  let p := branchStage cfg.webhookPublic fr ok g.seen s1.pubPosts
  { mem := p.seen
    disk := if s1.gourmet.isEmpty && s1.pubPosts.isEmpty then seen0 else p.seen
    log := g.log ++ p.log }

/-- The state of `notified_ids.json` in `discord_notifier.py`: one seen-set
per source category. -/
structure DState where
  pixiv : Finset Nat
  twitter : Finset Nat
deriving DecidableEq

/-- Outcome of one pixiv check: in-memory state, persisted file content, and
webhook attempt log. -/
structure DResult where
  mem : DState
  disk : DState
  log : List Delivery
deriving DecidableEq

/-- `DiscordNotifier.check_pixiv_new_posts` (lines 121-174): keep the latest
2 illusts, drop the already-seen ones, notify (or absorb on a first run),
and call `save_notified_ids` only when something new was found (line 169). -/
def check_pixiv_new_posts (u : String) (fr : Bool) (ok : String → Nat → Bool)
    (illusts : List Nat) (st disk0 : DState) : DResult :=
  let win := (illusts.take 2).filter fun i => decide (i ∉ st.pixiv)
  if win.isEmpty then ⟨st, disk0, []⟩
  else
    let a := notifyRun u fr ok st.pixiv win
    let st' := { st with pixiv := a.seen }
    ⟨st', st', a.log⟩

/-- Per-account fetch outcome in `check_twitter_new_posts`: an exception
raised by the user-lookup or feed fetch, a missing user (or empty feed
object), or a fetched list of tweet ids. -/
inductive TFetch where
  | err : TFetch
  | notFound : TFetch
  | tweets : List Nat → TFetch
deriving DecidableEq

/-- One monitored microblog account: its configured username and what its
fetch produced this run. -/
structure TAcct where
  name : String
  fetch : TFetch
deriving DecidableEq

/-- Accumulator of the per-account loop of `check_twitter_new_posts`:
in-memory state, persisted file content, webhook log, and the list of
accounts whose loop body ran (in order). -/
structure TAccState where
  st : DState
  disk : DState
  log : List Delivery
  attempted : List String
deriving DecidableEq

/-- One iteration of the account loop (lines 178-234).  The `try` block
wraps the whole body, so an exception is caught and the loop moves on; a
fetch failure happens before any state mutation. -/
def twitterStep (u : String) (fr : Bool) (ok : String → Nat → Bool)
    (a : TAccState) (acct : TAcct) : TAccState :=
  match acct.fetch with
  | .err => { a with attempted := a.attempted ++ [acct.name] }
  | .notFound => { a with attempted := a.attempted ++ [acct.name] }
  | .tweets ts =>
      let win := (ts.take 2).filter fun i => decide (i ∉ a.st.twitter)
      if win.isEmpty then { a with attempted := a.attempted ++ [acct.name] }
      else
        let r := notifyRun u fr ok a.st.twitter win
        let st' := { a.st with twitter := r.seen }
        { st := st', disk := st', log := a.log ++ r.log,
          attempted := a.attempted ++ [acct.name] }

/-- `DiscordNotifier.check_twitter_new_posts` (lines 176-234). -/
def check_twitter_new_posts (u : String) (fr : Bool) (ok : String → Nat → Bool)
    (accts : List TAcct) (st disk0 : DState) : TAccState :=
  accts.foldl (twitterStep u fr ok) ⟨st, disk0, [], []⟩

/-- `DiscordNotifier.run` (lines 236-249): the pixiv check followed by the
twitter check, sharing the in-memory state and the persisted file. -/
def runDiscord (pu tu : String) (fr : Bool) (ok : String → Nat → Bool)
    (illusts : List Nat) (accts : List TAcct) (st0 : DState) :
    DState × DState × List Delivery :=
  let r1 := check_pixiv_new_posts pu fr ok illusts st0 st0
  let r2 := check_twitter_new_posts tu fr ok accts r1.mem r1.disk
  (r2.st, r2.disk, r1.log ++ r2.log)

/-- One page of the membership-site posts API: the post list of the response
and whether a `next` pagination cursor was present. -/
structure Page where
  posts : List PPost
  hasNext : Bool

/-- The pagination loop of `fetch_latest_posts` (lines 84-100): each
iteration overwrites `all_posts` with the batch just fetched and stops at
the first response with no next cursor or an empty batch, so only that
final batch survives.  The model assumes the given response list covers the
whole pagination (the loop stops within it, or the list ends). -/
def lastPage : List Page → List PPost
  | [] => []
  | [r] => r.posts
  | r :: s :: rs =>
      if !r.hasNext || r.posts.isEmpty then r.posts else lastPage (s :: rs)

/-- The comparator of line 103: `sort(key=lambda x: int(x['id']),
reverse=True)`, i.e. non-strict descending order on the integer id. -/
def descById (a b : PPost) : Prop := b.id ≤ a.id

instance : DecidableRel descById := fun a b => Nat.decLe b.id a.id

instance : IsTotal PPost descById := ⟨fun a b => Nat.le_total b.id a.id⟩

instance : IsTrans PPost descById :=
  ⟨fun _ _ _ hab hbc => Nat.le_trans hbc hab⟩

/-- `PatreonNotifier.fetch_latest_posts` (lines 72-104): the final page,
sorted descending by integer id, truncated to 10 posts. -/
def fetch_latest_posts (pages : List Page) : List PPost :=
  ((lastPage pages).insertionSort descById).take 10

/-- The persisted seen-set after a sequence of `check_new_posts` process
runs against the same fetch result, each run with its own first-run flag
and webhook oracle; each run loads the set the previous run left on disk. -/
def diskIter (cfg : PConfig) (posts : List PPost)
    (runs : List (Bool × (String → Nat → Bool))) (s0 : Finset Nat) : Finset Nat :=
  runs.foldl (fun s r => (check_new_posts cfg r.1 r.2 posts s).disk) s0

/-! ### Characterization of the notify loops -/

theorem foldNotify_seen_mem (u : String) (fr : Bool) (ok : String → Nat → Bool)
    (pids : List Nat) :
    ∀ (a : NotifyAcc) (i : Nat),
      i ∈ (pids.foldl (notifyStep u fr ok) a).seen ↔
        i ∈ a.seen ∨ (i ∈ pids ∧ (fr = true ∨ ok u i = true)) := by
  induction pids with
  | nil => intro a i; simp
  | cons p ps ih =>
    intro a i
    rw [List.foldl_cons, ih]
    by_cases hi : i = p
    · subst hi
      cases hfr : fr with
      | true => simp [notifyStep]
      | false =>
        cases hok : ok u i with
        | true => simp [notifyStep, hok]
        | false => simp [notifyStep, hok]
    · have hseen : i ∈ (notifyStep u fr ok a p).seen ↔ i ∈ a.seen := by
        unfold notifyStep
        cases fr with
        | true => simp [Finset.mem_insert, hi]
        | false =>
          cases hok : ok u p with
          | true => simp [hok, Finset.mem_insert, hi]
          | false => simp [hok]
      rw [hseen]
      simp [List.mem_cons, hi]

theorem foldNotify_log (u : String) (fr : Bool) (ok : String → Nat → Bool)
    (pids : List Nat) :
    ∀ a : NotifyAcc,
      (pids.foldl (notifyStep u fr ok) a).log =
        a.log ++ if fr = true then [] else pids.map fun i => ⟨u, i, ok u i⟩ := by
  induction pids with
  | nil => intro a; simp
  | cons p ps ih =>
    intro a
    rw [List.foldl_cons, ih]
    cases fr with
    | true => simp [notifyStep]
    | false =>
      cases hok : ok u p with
      | true => simp [notifyStep, hok]
      | false => simp [notifyStep, hok]

theorem notifyRun_seen_mem (u : String) (fr : Bool) (ok : String → Nat → Bool)
    (s : Finset Nat) (pids : List Nat) (i : Nat) :
    i ∈ (notifyRun u fr ok s pids).seen ↔
      i ∈ s ∨ (i ∈ pids ∧ (fr = true ∨ ok u i = true)) :=
  foldNotify_seen_mem u fr ok pids ⟨s, []⟩ i

theorem notifyRun_log (u : String) (fr : Bool) (ok : String → Nat → Bool)
    (s : Finset Nat) (pids : List Nat) :
    (notifyRun u fr ok s pids).log =
      if fr = true then [] else pids.map fun i => ⟨u, i, ok u i⟩ := by
  rw [notifyRun, foldNotify_log]
  simp

/-! ### Characterization of the classification loop -/

theorem classifyStep_seen (cfg : PConfig) (s : Phase1) (p : PPost) :
    (classifyStep cfg s p).seen =
      if p.id ∉ s.seen ∧ isMaint p = true then insert p.id s.seen else s.seen := by
  unfold classifyStep
  by_cases h1 : p.id ∈ s.seen
  · simp [h1]
  · cases hm : isMaint p
    · cases htg : tierGourmet cfg p
      · cases htp : tierPublic cfg p <;> simp [h1, hm, htg, htp]
      · simp [h1, hm, htg]
    · simp [h1, hm]

theorem classifyStep_gourmet (cfg : PConfig) (s : Phase1) (p : PPost) :
    (classifyStep cfg s p).gourmet =
      if p.id ∉ s.seen ∧ isMaint p = false ∧ tierGourmet cfg p = true
      then s.gourmet ++ [p] else s.gourmet := by
  unfold classifyStep
  by_cases h1 : p.id ∈ s.seen
  · simp [h1]
  · cases hm : isMaint p
    · cases htg : tierGourmet cfg p
      · cases htp : tierPublic cfg p <;> simp [h1, hm, htg, htp]
      · simp [h1, hm, htg]
    · simp [h1, hm]

theorem classifyStep_pubPosts (cfg : PConfig) (s : Phase1) (p : PPost) :
    (classifyStep cfg s p).pubPosts =
      if p.id ∉ s.seen ∧ isMaint p = false ∧ tierGourmet cfg p = false ∧
          tierPublic cfg p = true
      then s.pubPosts ++ [p] else s.pubPosts := by
  unfold classifyStep
  by_cases h1 : p.id ∈ s.seen
  · simp [h1]
  · cases hm : isMaint p
    · cases htg : tierGourmet cfg p
      · cases htp : tierPublic cfg p <;> simp [h1, hm, htg, htp]
      · simp [h1, hm, htg]
    · simp [h1, hm]

theorem foldClassify_seen_mem (cfg : PConfig) (l : List PPost) :
    ∀ (s : Phase1) (i : Nat),
      i ∈ (l.foldl (classifyStep cfg) s).seen ↔
        i ∈ s.seen ∨ ∃ p ∈ l, isMaint p = true ∧ p.id = i := by
  induction l with
  | nil => intro s i; simp
  | cons p ps ih =>
    intro s i
    rw [List.foldl_cons, ih, classifyStep_seen]
    by_cases hc : p.id ∉ s.seen ∧ isMaint p = true
    · rw [if_pos hc]
      simp only [Finset.mem_insert, List.mem_cons]
      constructor
      · rintro ((rfl | h) | ⟨q, hq, hmq, hid⟩)
        · exact Or.inr ⟨p, Or.inl rfl, hc.2, rfl⟩
        · exact Or.inl h
        · exact Or.inr ⟨q, Or.inr hq, hmq, hid⟩
      · rintro (h | ⟨q, (rfl | hq), hmq, hid⟩)
        · exact Or.inl (Or.inr h)
        · exact Or.inl (Or.inl hid.symm)
        · exact Or.inr ⟨q, hq, hmq, hid⟩
    · rw [if_neg hc]
      simp only [List.mem_cons]
      constructor
      · rintro (h | ⟨q, hq, hmq, hid⟩)
        · exact Or.inl h
        · exact Or.inr ⟨q, Or.inr hq, hmq, hid⟩
      · rintro (h | ⟨q, (rfl | hq), hmq, hid⟩)
        · exact Or.inl h
        · rcases Decidable.not_and_iff_or_not.mp hc with h2 | h2
          · exact Or.inl (hid ▸ Decidable.not_not.mp h2)
          · exact absurd hmq h2
        · exact Or.inr ⟨q, hq, hmq, hid⟩

theorem foldClassify_gourmet_mono (cfg : PConfig) (l : List PPost) :
    ∀ (s : Phase1) (q : PPost), q ∈ s.gourmet →
      q ∈ (l.foldl (classifyStep cfg) s).gourmet := by
  induction l with
  | nil => intro s q h; simpa using h
  | cons p ps ih =>
    intro s q h
    rw [List.foldl_cons]
    apply ih
    rw [classifyStep_gourmet]
    split_ifs
    · exact List.mem_append_left _ h
    · exact h

theorem foldClassify_pubPosts_mono (cfg : PConfig) (l : List PPost) :
    ∀ (s : Phase1) (q : PPost), q ∈ s.pubPosts →
      q ∈ (l.foldl (classifyStep cfg) s).pubPosts := by
  induction l with
  | nil => intro s q h; simpa using h
  | cons p ps ih =>
    intro s q h
    rw [List.foldl_cons]
    apply ih
    rw [classifyStep_pubPosts]
    split_ifs
    · exact List.mem_append_left _ h
    · exact h

theorem foldClassify_gourmet_sound (cfg : PConfig) (l : List PPost) :
    ∀ (s : Phase1) (q : PPost), q ∈ (l.foldl (classifyStep cfg) s).gourmet →
      q ∈ s.gourmet ∨ (q ∈ l ∧ isMaint q = false ∧ tierGourmet cfg q = true) := by
  induction l with
  | nil => intro s q h; exact Or.inl (by simpa using h)
  | cons p ps ih =>
    intro s q h
    rw [List.foldl_cons] at h
    rcases ih _ q h with h2 | h2
    · rw [classifyStep_gourmet] at h2
      by_cases hc : p.id ∉ s.seen ∧ isMaint p = false ∧ tierGourmet cfg p = true
      · rw [if_pos hc] at h2
        rcases List.mem_append.mp h2 with h3 | h3
        · exact Or.inl h3
        · have hq : q = p := by simpa using h3
          subst hq
          exact Or.inr ⟨List.mem_cons_self _ _, hc.2.1, hc.2.2⟩
      · rw [if_neg hc] at h2
        exact Or.inl h2
    · exact Or.inr ⟨List.mem_cons_of_mem _ h2.1, h2.2⟩

theorem foldClassify_pubPosts_sound (cfg : PConfig) (l : List PPost) :
    ∀ (s : Phase1) (q : PPost), q ∈ (l.foldl (classifyStep cfg) s).pubPosts →
      q ∈ s.pubPosts ∨ (q ∈ l ∧ isMaint q = false ∧ tierGourmet cfg q = false ∧
        tierPublic cfg q = true) := by
  induction l with
  | nil => intro s q h; exact Or.inl (by simpa using h)
  | cons p ps ih =>
    intro s q h
    rw [List.foldl_cons] at h
    rcases ih _ q h with h2 | h2
    · rw [classifyStep_pubPosts] at h2
      by_cases hc : p.id ∉ s.seen ∧ isMaint p = false ∧ tierGourmet cfg p = false ∧
          tierPublic cfg p = true
      · rw [if_pos hc] at h2
        rcases List.mem_append.mp h2 with h3 | h3
        · exact Or.inl h3
        · have hq : q = p := by simpa using h3
          subst hq
          exact Or.inr ⟨List.mem_cons_self _ _, hc.2.1, hc.2.2.1, hc.2.2.2⟩
      · rw [if_neg hc] at h2
        exact Or.inl h2
    · exact Or.inr ⟨List.mem_cons_of_mem _ h2.1, h2.2⟩

theorem foldClassify_gourmet_complete (cfg : PConfig) (l : List PPost) :
    ∀ (s : Phase1) (q : PPost), q ∈ l →
      (∀ r ∈ l, isMaint r = true → r.id ≠ q.id) →
      q.id ∉ s.seen → isMaint q = false → tierGourmet cfg q = true →
      q ∈ (l.foldl (classifyStep cfg) s).gourmet := by
  induction l with
  | nil => intro s q h; cases h
  | cons p ps ih =>
    intro s q hq hmm hqs hm htg
    rw [List.foldl_cons]
    rcases List.mem_cons.mp hq with rfl | hq'
    · apply foldClassify_gourmet_mono
      rw [classifyStep_gourmet, if_pos ⟨hqs, hm, htg⟩]
      exact List.mem_append_right _ (List.mem_singleton.mpr rfl)
    · have hseen : q.id ∉ (classifyStep cfg s p).seen := by
        rw [classifyStep_seen]
        split_ifs with hc
        · rw [Finset.mem_insert]
          rintro (h | h)
          · exact hmm p (List.mem_cons_self _ _) hc.2 h.symm
          · exact hqs h
        · exact hqs
      exact ih (classifyStep cfg s p) q hq'
        (fun r hr hmr => hmm r (List.mem_cons_of_mem _ hr) hmr) hseen hm htg

theorem foldClassify_pubPosts_complete (cfg : PConfig) (l : List PPost) :
    ∀ (s : Phase1) (q : PPost), q ∈ l →
      (∀ r ∈ l, isMaint r = true → r.id ≠ q.id) →
      q.id ∉ s.seen → isMaint q = false → tierGourmet cfg q = false →
      tierPublic cfg q = true →
      q ∈ (l.foldl (classifyStep cfg) s).pubPosts := by
  induction l with
  | nil => intro s q h; cases h
  | cons p ps ih =>
    intro s q hq hmm hqs hm htg htp
    rw [List.foldl_cons]
    rcases List.mem_cons.mp hq with rfl | hq'
    · apply foldClassify_pubPosts_mono
      rw [classifyStep_pubPosts, if_pos ⟨hqs, hm, htg, htp⟩]
      exact List.mem_append_right _ (List.mem_singleton.mpr rfl)
    · have hseen : q.id ∉ (classifyStep cfg s p).seen := by
        rw [classifyStep_seen]
        split_ifs with hc
        · rw [Finset.mem_insert]
          rintro (h | h)
          · exact hmm p (List.mem_cons_self _ _) hc.2 h.symm
          · exact hqs h
        · exact hqs
      exact ih (classifyStep cfg s p) q hq'
        (fun r hr hmr => hmm r (List.mem_cons_of_mem _ hr) hmr) hseen hm htg htp

theorem foldClassify_all_seen (cfg : PConfig) (l : List PPost) :
    ∀ s : Phase1, (∀ p ∈ l, p.id ∈ s.seen) → l.foldl (classifyStep cfg) s = s := by
  induction l with
  | nil => intro s _; rfl
  | cons p ps ih =>
    intro s h
    rw [List.foldl_cons]
    have hstep : classifyStep cfg s p = s := by
      unfold classifyStep
      rw [if_pos (h p (List.mem_cons_self _ _))]
    rw [hstep]
    exact ih s fun q hq => h q (List.mem_cons_of_mem _ hq)

theorem foldClassify_gourmet_sublist (cfg : PConfig) (l : List PPost) :
    ∀ s : Phase1, ∃ t : List PPost,
      (l.foldl (classifyStep cfg) s).gourmet = s.gourmet ++ t ∧ t.Sublist l := by
  induction l with
  | nil => intro s; exact ⟨[], by simp, List.Sublist.refl _⟩
  | cons p ps ih =>
    intro s
    rw [List.foldl_cons]
    obtain ⟨t, ht, hsub⟩ := ih (classifyStep cfg s p)
    rw [classifyStep_gourmet] at ht
    by_cases hc : p.id ∉ s.seen ∧ isMaint p = false ∧ tierGourmet cfg p = true
    · rw [if_pos hc] at ht
      exact ⟨p :: t, by rw [ht]; simp, List.Sublist.cons₂ _ hsub⟩
    · rw [if_neg hc] at ht
      exact ⟨t, ht, List.Sublist.cons _ hsub⟩

/-! ### Phase-1 wrappers (classification from the loaded seen-set) -/

theorem phase1_seen_mem (cfg : PConfig) (posts : List PPost) (s0 : Finset Nat)
    (i : Nat) :
    i ∈ (phase1 cfg s0 posts).seen ↔
      i ∈ s0 ∨ ∃ p ∈ posts, isMaint p = true ∧ p.id = i :=
  foldClassify_seen_mem cfg posts ⟨s0, [], []⟩ i

theorem phase1_gourmet_sound (cfg : PConfig) (posts : List PPost) (s0 : Finset Nat)
    (q : PPost) (h : q ∈ (phase1 cfg s0 posts).gourmet) :
    q ∈ posts ∧ isMaint q = false ∧ tierGourmet cfg q = true := by
  rcases foldClassify_gourmet_sound cfg posts ⟨s0, [], []⟩ q h with h2 | h2
  · simp at h2
  · exact h2

theorem phase1_pubPosts_sound (cfg : PConfig) (posts : List PPost) (s0 : Finset Nat)
    (q : PPost) (h : q ∈ (phase1 cfg s0 posts).pubPosts) :
    q ∈ posts ∧ isMaint q = false ∧ tierGourmet cfg q = false ∧
      tierPublic cfg q = true := by
  rcases foldClassify_pubPosts_sound cfg posts ⟨s0, [], []⟩ q h with h2 | h2
  · simp at h2
  · exact h2

theorem phase1_gourmet_complete (cfg : PConfig) (posts : List PPost) (s0 : Finset Nat)
    (q : PPost) (hq : q ∈ posts)
    (hinj : ∀ r ∈ posts, isMaint r = true → r.id ≠ q.id)
    (hqs : q.id ∉ s0) (hm : isMaint q = false) (htg : tierGourmet cfg q = true) :
    q ∈ (phase1 cfg s0 posts).gourmet :=
  foldClassify_gourmet_complete cfg posts ⟨s0, [], []⟩ q hq hinj hqs hm htg

theorem phase1_pubPosts_complete (cfg : PConfig) (posts : List PPost) (s0 : Finset Nat)
    (q : PPost) (hq : q ∈ posts)
    (hinj : ∀ r ∈ posts, isMaint r = true → r.id ≠ q.id)
    (hqs : q.id ∉ s0) (hm : isMaint q = false) (htg : tierGourmet cfg q = false)
    (htp : tierPublic cfg q = true) :
    q ∈ (phase1 cfg s0 posts).pubPosts :=
  foldClassify_pubPosts_complete cfg posts ⟨s0, [], []⟩ q hq hinj hqs hm htg htp

theorem phase1_all_seen (cfg : PConfig) (posts : List PPost) (s0 : Finset Nat)
    (h : ∀ p ∈ posts, p.id ∈ s0) :
    phase1 cfg s0 posts = ⟨s0, [], []⟩ :=
  foldClassify_all_seen cfg posts ⟨s0, [], []⟩ h

theorem phase1_branches_disjoint (cfg : PConfig) (posts : List PPost)
    (s0 : Finset Nat) (q : PPost) (hg : q ∈ (phase1 cfg s0 posts).gourmet)
    (hp : q ∈ (phase1 cfg s0 posts).pubPosts) : False := by
  have h1 := (phase1_gourmet_sound cfg posts s0 q hg).2.2
  have h2 := (phase1_pubPosts_sound cfg posts s0 q hp).2.2.1
  rw [h1] at h2
  cases h2

/-- In a list of posts with pairwise distinct ids, two members sharing an id
are the same post. -/
theorem id_inj_of_nodup {posts : List PPost} (h : (posts.map PPost.id).Nodup)
    {q r : PPost} (hq : q ∈ posts) (hr : r ∈ posts) (hid : r.id = q.id) :
    r = q :=
  List.inj_on_of_nodup_map h hr hq hid

/-- With pairwise distinct ids, no maintenance post of the list can collide
with the id of a given non-maintenance member. -/
theorem maint_ne_of_nodup {posts : List PPost} (h : (posts.map PPost.id).Nodup)
    {q : PPost} (hq : q ∈ posts) (hm : isMaint q = false) :
    ∀ r ∈ posts, isMaint r = true → r.id ≠ q.id := by
  intro r hr hmr hid
  have heq := id_inj_of_nodup h hq hr hid
  rw [heq, hm] at hmr
  cases hmr

theorem foldClassify_pubPosts_sublist (cfg : PConfig) (l : List PPost) :
    ∀ s : Phase1, ∃ t : List PPost,
      (l.foldl (classifyStep cfg) s).pubPosts = s.pubPosts ++ t ∧ t.Sublist l := by
  induction l with
  | nil => intro s; exact ⟨[], by simp, List.Sublist.refl _⟩
  | cons p ps ih =>
    intro s
    rw [List.foldl_cons]
    obtain ⟨t, ht, hsub⟩ := ih (classifyStep cfg s p)
    rw [classifyStep_pubPosts] at ht
    by_cases hc : p.id ∉ s.seen ∧ isMaint p = false ∧ tierGourmet cfg p = false ∧
        tierPublic cfg p = true
    · rw [if_pos hc] at ht
      exact ⟨p :: t, by rw [ht]; simp, List.Sublist.cons₂ _ hsub⟩
    · rw [if_neg hc] at ht
      exact ⟨t, ht, List.Sublist.cons _ hsub⟩

theorem phase1_gourmet_sublist (cfg : PConfig) (posts : List PPost)
    (s0 : Finset Nat) : ((phase1 cfg s0 posts).gourmet).Sublist posts := by
  obtain ⟨t, ht, hsub⟩ := foldClassify_gourmet_sublist cfg posts ⟨s0, [], []⟩
  rw [phase1, ht]
  simpa using hsub

theorem phase1_pubPosts_sublist (cfg : PConfig) (posts : List PPost)
    (s0 : Finset Nat) : ((phase1 cfg s0 posts).pubPosts).Sublist posts := by
  obtain ⟨t, ht, hsub⟩ := foldClassify_pubPosts_sublist cfg posts ⟨s0, [], []⟩
  rw [phase1, ht]
  simpa using hsub

/-! ### Characterization of the branch notify stages and of
`check_new_posts` -/

theorem branchStage_seen_mem (w : Option String) (fr : Bool)
    (ok : String → Nat → Bool) (seen : Finset Nat) (branch : List PPost)
    (i : Nat) :
    i ∈ (branchStage w fr ok seen branch).seen ↔
      i ∈ seen ∨ ∃ u, w = some u ∧ i ∈ branch.map PPost.id ∧
        (fr = true ∨ ok u i = true) := by
  cases w with
  | none => simp [branchStage]
  | some u =>
    by_cases hb : branch.isEmpty = true
    · have hnil : branch = [] := by simpa using hb
      subst hnil
      simp [branchStage]
    · simp [branchStage, hb, notifyRun_seen_mem]

theorem branchStage_log (w : Option String) (fr : Bool)
    (ok : String → Nat → Bool) (seen : Finset Nat) (branch : List PPost) :
    (branchStage w fr ok seen branch).log =
      match w with
      | some u =>
          if fr = true then []
          else (branch.map PPost.id).map fun i => ⟨u, i, ok u i⟩
      | none => [] := by
  cases w with
  | none => rfl
  | some u =>
    by_cases hb : branch.isEmpty = true
    · have hnil : branch = [] := by simpa using hb
      subst hnil
      cases fr <;> simp [branchStage]
    · simp [branchStage, hb, notifyRun_log]

theorem check_mem_def (cfg : PConfig) (fr : Bool) (ok : String → Nat → Bool)
    (posts : List PPost) (s0 : Finset Nat) :
    (check_new_posts cfg fr ok posts s0).mem =
      (branchStage cfg.webhookPublic fr ok
        (branchStage cfg.webhookGourmet fr ok (phase1 cfg s0 posts).seen
          (phase1 cfg s0 posts).gourmet).seen
        (phase1 cfg s0 posts).pubPosts).seen := rfl

theorem check_log_def (cfg : PConfig) (fr : Bool) (ok : String → Nat → Bool)
    (posts : List PPost) (s0 : Finset Nat) :
    (check_new_posts cfg fr ok posts s0).log =
      (branchStage cfg.webhookGourmet fr ok (phase1 cfg s0 posts).seen
        (phase1 cfg s0 posts).gourmet).log ++
      (branchStage cfg.webhookPublic fr ok
        (branchStage cfg.webhookGourmet fr ok (phase1 cfg s0 posts).seen
          (phase1 cfg s0 posts).gourmet).seen
        (phase1 cfg s0 posts).pubPosts).log := rfl

theorem check_disk_def (cfg : PConfig) (fr : Bool) (ok : String → Nat → Bool)
    (posts : List PPost) (s0 : Finset Nat) :
    (check_new_posts cfg fr ok posts s0).disk =
      if (phase1 cfg s0 posts).gourmet.isEmpty &&
          (phase1 cfg s0 posts).pubPosts.isEmpty
      then s0 else (check_new_posts cfg fr ok posts s0).mem := rfl

theorem check_mem_iff (cfg : PConfig) (fr : Bool) (ok : String → Nat → Bool)
    (posts : List PPost) (s0 : Finset Nat) (i : Nat) :
    i ∈ (check_new_posts cfg fr ok posts s0).mem ↔
      i ∈ (phase1 cfg s0 posts).seen
      ∨ (∃ u, cfg.webhookGourmet = some u ∧
            i ∈ (phase1 cfg s0 posts).gourmet.map PPost.id ∧
            (fr = true ∨ ok u i = true))
      ∨ (∃ u, cfg.webhookPublic = some u ∧
            i ∈ (phase1 cfg s0 posts).pubPosts.map PPost.id ∧
            (fr = true ∨ ok u i = true)) := by
  rw [check_mem_def, branchStage_seen_mem, branchStage_seen_mem]
  exact or_assoc

theorem check_disk_eq_mem (cfg : PConfig) (fr : Bool) (ok : String → Nat → Bool)
    (posts : List PPost) (s0 : Finset Nat)
    (h : (phase1 cfg s0 posts).gourmet ≠ [] ∨ (phase1 cfg s0 posts).pubPosts ≠ []) :
    (check_new_posts cfg fr ok posts s0).disk =
      (check_new_posts cfg fr ok posts s0).mem := by
  rw [check_disk_def, if_neg]
  rcases h with h | h <;> simp [List.isEmpty_iff, h]

theorem check_disk_cases (cfg : PConfig) (fr : Bool) (ok : String → Nat → Bool)
    (posts : List PPost) (s0 : Finset Nat) :
    (check_new_posts cfg fr ok posts s0).disk = s0 ∨
      (check_new_posts cfg fr ok posts s0).disk =
        (check_new_posts cfg fr ok posts s0).mem := by
  rw [check_disk_def]
  split_ifs
  · exact Or.inl rfl
  · exact Or.inr rfl

theorem check_log_sound (cfg : PConfig) (fr : Bool) (ok : String → Nat → Bool)
    (posts : List PPost) (s0 : Finset Nat) (d : Delivery)
    (hd : d ∈ (check_new_posts cfg fr ok posts s0).log) :
    fr = false ∧
      ((∃ u, cfg.webhookGourmet = some u ∧
          ∃ q ∈ (phase1 cfg s0 posts).gourmet, d = ⟨u, q.id, ok u q.id⟩) ∨
       (∃ u, cfg.webhookPublic = some u ∧
          ∃ q ∈ (phase1 cfg s0 posts).pubPosts, d = ⟨u, q.id, ok u q.id⟩)) := by
  rw [check_log_def, branchStage_log, branchStage_log] at hd
  cases hfr : fr with
  | true =>
    exfalso
    rw [hfr] at hd
    cases hwg : cfg.webhookGourmet <;> cases hwp : cfg.webhookPublic <;>
      rw [hwg, hwp] at hd <;> simp at hd
  | false =>
    refine ⟨rfl, ?_⟩
    rw [hfr] at hd
    rcases List.mem_append.mp hd with h | h
    · cases hwg : cfg.webhookGourmet with
      | none => rw [hwg] at h; simp at h
      | some u =>
        rw [hwg] at h
        simp only [if_neg (by simp : ¬(false = true)), List.map_map,
          List.mem_map] at h
        obtain ⟨q, hq, hmap⟩ := h
        exact Or.inl ⟨u, rfl, q, hq, hmap.symm⟩
    · cases hwp : cfg.webhookPublic with
      | none => rw [hwp] at h; simp at h
      | some u =>
        rw [hwp] at h
        simp only [if_neg (by simp : ¬(false = true)), List.map_map,
          List.mem_map] at h
        obtain ⟨q, hq, hmap⟩ := h
        exact Or.inr ⟨u, rfl, q, hq, hmap.symm⟩

theorem check_log_gourmet_complete (cfg : PConfig) (ok : String → Nat → Bool)
    (posts : List PPost) (s0 : Finset Nat) (u : String) (q : PPost)
    (hw : cfg.webhookGourmet = some u) (hq : q ∈ (phase1 cfg s0 posts).gourmet) :
    (⟨u, q.id, ok u q.id⟩ : Delivery) ∈
      (check_new_posts cfg false ok posts s0).log := by
  rw [check_log_def]
  apply List.mem_append_left
  rw [branchStage_log, hw]
  simp only [if_neg (by simp : ¬(false = true)), List.map_map, List.mem_map]
  exact ⟨q, hq, rfl⟩

theorem check_log_pubPosts_complete (cfg : PConfig) (ok : String → Nat → Bool)
    (posts : List PPost) (s0 : Finset Nat) (u : String) (q : PPost)
    (hw : cfg.webhookPublic = some u) (hq : q ∈ (phase1 cfg s0 posts).pubPosts) :
    (⟨u, q.id, ok u q.id⟩ : Delivery) ∈
      (check_new_posts cfg false ok posts s0).log := by
  rw [check_log_def]
  apply List.mem_append_right
  rw [branchStage_log, hw]
  simp only [if_neg (by simp : ¬(false = true)), List.map_map, List.mem_map]
  exact ⟨q, hq, rfl⟩

/-! ### Characterization of the pixiv check -/

theorem checkPixiv_def (u : String) (fr : Bool) (ok : String → Nat → Bool)
    (il : List Nat) (st d0 : DState) :
    check_pixiv_new_posts u fr ok il st d0 =
      if ((il.take 2).filter fun i => decide (i ∉ st.pixiv)).isEmpty
      then ⟨st, d0, []⟩
      else
        ⟨⟨(notifyRun u fr ok st.pixiv
              ((il.take 2).filter fun i => decide (i ∉ st.pixiv))).seen,
          st.twitter⟩,
         ⟨(notifyRun u fr ok st.pixiv
              ((il.take 2).filter fun i => decide (i ∉ st.pixiv))).seen,
          st.twitter⟩,
         (notifyRun u fr ok st.pixiv
            ((il.take 2).filter fun i => decide (i ∉ st.pixiv))).log⟩ := rfl

theorem checkPixiv_mem_pixiv (u : String) (fr : Bool) (ok : String → Nat → Bool)
    (il : List Nat) (st d0 : DState) (i : Nat) :
    i ∈ (check_pixiv_new_posts u fr ok il st d0).mem.pixiv ↔
      i ∈ st.pixiv ∨ (i ∈ il.take 2 ∧ (fr = true ∨ ok u i = true)) := by
  rw [checkPixiv_def]
  by_cases hb : ((il.take 2).filter fun j => decide (j ∉ st.pixiv)).isEmpty = true
  · rw [if_pos hb]
    have hnil := List.isEmpty_iff.mp hb
    constructor
    · exact Or.inl
    · rintro (h | ⟨h1, h2⟩)
      · exact h
      · by_cases hin : i ∈ st.pixiv
        · exact hin
        · exfalso
          have hw : i ∈ (il.take 2).filter fun j => decide (j ∉ st.pixiv) := by
            simp [h1, hin]
          rw [hnil] at hw
          cases hw
  · rw [if_neg hb]
    show i ∈ (notifyRun u fr ok st.pixiv
        ((il.take 2).filter fun j => decide (j ∉ st.pixiv))).seen ↔ _
    rw [notifyRun_seen_mem]
    constructor
    · rintro (h | ⟨h1, h2⟩)
      · exact Or.inl h
      · rcases List.mem_filter.mp h1 with ⟨h3, _⟩
        exact Or.inr ⟨h3, h2⟩
    · rintro (h | ⟨h1, h2⟩)
      · exact Or.inl h
      · by_cases hin : i ∈ st.pixiv
        · exact Or.inl hin
        · exact Or.inr ⟨List.mem_filter.mpr ⟨h1, by simpa using hin⟩, h2⟩

theorem checkPixiv_mem_twitter (u : String) (fr : Bool) (ok : String → Nat → Bool)
    (il : List Nat) (st d0 : DState) :
    (check_pixiv_new_posts u fr ok il st d0).mem.twitter = st.twitter := by
  rw [checkPixiv_def]
  split_ifs <;> rfl

theorem checkPixiv_disk_self (u : String) (fr : Bool) (ok : String → Nat → Bool)
    (il : List Nat) (st : DState) :
    (check_pixiv_new_posts u fr ok il st st).disk =
      (check_pixiv_new_posts u fr ok il st st).mem := by
  rw [checkPixiv_def]
  split_ifs <;> rfl

theorem checkPixiv_log (u : String) (fr : Bool) (ok : String → Nat → Bool)
    (il : List Nat) (st d0 : DState) :
    (check_pixiv_new_posts u fr ok il st d0).log =
      if fr = true then []
      else ((il.take 2).filter fun j => decide (j ∉ st.pixiv)).map
        fun i => ⟨u, i, ok u i⟩ := by
  rw [checkPixiv_def]
  by_cases hb : ((il.take 2).filter fun j => decide (j ∉ st.pixiv)).isEmpty = true
  · rw [if_pos hb]
    have hnil := List.isEmpty_iff.mp hb
    cases fr
    · rw [if_neg (by simp : ¬(false = true)), hnil]
      rfl
    · rfl
  · rw [if_neg hb]
    show (notifyRun u fr ok st.pixiv
        ((il.take 2).filter fun j => decide (j ∉ st.pixiv))).log = _
    rw [notifyRun_log]

theorem checkPixiv_all_seen (u : String) (fr : Bool) (ok : String → Nat → Bool)
    (il : List Nat) (st d0 : DState) (h : ∀ i ∈ il.take 2, i ∈ st.pixiv) :
    check_pixiv_new_posts u fr ok il st d0 = ⟨st, d0, []⟩ := by
  rw [checkPixiv_def, if_pos]
  rw [List.isEmpty_iff]
  exact List.filter_eq_nil_iff.mpr fun i hi => by simp [h i hi]

/-! ### Characterization of the twitter account loop -/

theorem twitterStep_attempted (u : String) (fr : Bool) (ok : String → Nat → Bool)
    (a : TAccState) (acct : TAcct) :
    (twitterStep u fr ok a acct).attempted = a.attempted ++ [acct.name] := by
  cases hf : acct.fetch with
  | err => simp [twitterStep, hf]
  | notFound => simp [twitterStep, hf]
  | tweets ts =>
    simp only [twitterStep, hf]
    split_ifs <;> rfl

theorem twitterStep_st_pixiv (u : String) (fr : Bool) (ok : String → Nat → Bool)
    (a : TAccState) (acct : TAcct) :
    (twitterStep u fr ok a acct).st.pixiv = a.st.pixiv := by
  cases hf : acct.fetch with
  | err => simp [twitterStep, hf]
  | notFound => simp [twitterStep, hf]
  | tweets ts =>
    simp only [twitterStep, hf]
    split_ifs <;> rfl

theorem twitterStep_st_twitter_mono (u : String) (fr : Bool)
    (ok : String → Nat → Bool) (a : TAccState) (acct : TAcct) (i : Nat)
    (h : i ∈ a.st.twitter) : i ∈ (twitterStep u fr ok a acct).st.twitter := by
  cases hf : acct.fetch with
  | err => simpa [twitterStep, hf] using h
  | notFound => simpa [twitterStep, hf] using h
  | tweets ts =>
    simp only [twitterStep, hf]
    split_ifs
    · exact h
    · show i ∈ (notifyRun u fr ok a.st.twitter
        ((ts.take 2).filter fun j => decide (j ∉ a.st.twitter))).seen
      rw [notifyRun_seen_mem]
      exact Or.inl h

theorem twitterStep_disk_eq_st (u : String) (fr : Bool)
    (ok : String → Nat → Bool) (a : TAccState) (acct : TAcct)
    (h : a.disk = a.st) :
    (twitterStep u fr ok a acct).disk = (twitterStep u fr ok a acct).st := by
  cases hf : acct.fetch with
  | err => simpa [twitterStep, hf] using h
  | notFound => simpa [twitterStep, hf] using h
  | tweets ts =>
    simp only [twitterStep, hf]
    split_ifs
    · exact h
    · rfl

theorem twitterStep_log_fr (u : String) (ok : String → Nat → Bool)
    (a : TAccState) (acct : TAcct) :
    (twitterStep u true ok a acct).log = a.log := by
  cases hf : acct.fetch with
  | err => simp [twitterStep, hf]
  | notFound => simp [twitterStep, hf]
  | tweets ts =>
    simp only [twitterStep, hf]
    split_ifs
    · rfl
    · show a.log ++ (notifyRun u true ok a.st.twitter
        ((ts.take 2).filter fun j => decide (j ∉ a.st.twitter))).log = a.log
      rw [notifyRun_log]
      simp

theorem twitterStep_attempted_free (u : String) (fr : Bool)
    (ok : String → Nat → Bool) (a : TAccState) (att : List String)
    (acct : TAcct) :
    twitterStep u fr ok { a with attempted := att } acct =
      { twitterStep u fr ok a acct with attempted := att ++ [acct.name] } := by
  cases hf : acct.fetch with
  | err => simp [twitterStep, hf]
  | notFound => simp [twitterStep, hf]
  | tweets ts =>
    simp only [twitterStep, hf]
    split_ifs <;> rfl

theorem foldTwitter_attempted (u : String) (fr : Bool) (ok : String → Nat → Bool)
    (l : List TAcct) :
    ∀ a : TAccState,
      (l.foldl (twitterStep u fr ok) a).attempted =
        a.attempted ++ l.map TAcct.name := by
  induction l with
  | nil => intro a; simp
  | cons b rest ih =>
    intro a
    rw [List.foldl_cons, ih, twitterStep_attempted]
    simp

theorem foldTwitter_st_pixiv (u : String) (fr : Bool) (ok : String → Nat → Bool)
    (l : List TAcct) :
    ∀ a : TAccState, (l.foldl (twitterStep u fr ok) a).st.pixiv = a.st.pixiv := by
  induction l with
  | nil => intro a; rfl
  | cons b rest ih =>
    intro a
    rw [List.foldl_cons, ih, twitterStep_st_pixiv]

theorem foldTwitter_st_twitter_mono (u : String) (fr : Bool)
    (ok : String → Nat → Bool) (l : List TAcct) :
    ∀ (a : TAccState) (i : Nat), i ∈ a.st.twitter →
      i ∈ (l.foldl (twitterStep u fr ok) a).st.twitter := by
  induction l with
  | nil => intro a i h; exact h
  | cons b rest ih =>
    intro a i h
    rw [List.foldl_cons]
    exact ih _ i (twitterStep_st_twitter_mono u fr ok a b i h)

theorem foldTwitter_disk_eq_st (u : String) (fr : Bool)
    (ok : String → Nat → Bool) (l : List TAcct) :
    ∀ a : TAccState, a.disk = a.st →
      (l.foldl (twitterStep u fr ok) a).disk =
        (l.foldl (twitterStep u fr ok) a).st := by
  induction l with
  | nil => intro a h; exact h
  | cons b rest ih =>
    intro a h
    rw [List.foldl_cons]
    exact ih _ (twitterStep_disk_eq_st u fr ok a b h)

theorem foldTwitter_log_fr (u : String) (ok : String → Nat → Bool)
    (l : List TAcct) :
    ∀ a : TAccState, (l.foldl (twitterStep u true ok) a).log = a.log := by
  induction l with
  | nil => intro a; rfl
  | cons b rest ih =>
    intro a
    rw [List.foldl_cons, ih, twitterStep_log_fr]

theorem foldTwitter_attempted_free (u : String) (fr : Bool)
    (ok : String → Nat → Bool) (l : List TAcct) :
    ∀ (a : TAccState) (att : List String),
      l.foldl (twitterStep u fr ok) { a with attempted := att } =
        { l.foldl (twitterStep u fr ok) a with
            attempted := att ++ l.map TAcct.name } := by
  induction l with
  | nil => intro a att; simp
  | cons b rest ih =>
    intro a att
    rw [List.foldl_cons, twitterStep_attempted_free, ih, List.foldl_cons]
    simp

theorem foldTwitter_all_seen (u : String) (fr : Bool) (ok : String → Nat → Bool)
    (l : List TAcct) :
    ∀ a : TAccState,
      (∀ acct ∈ l, ∀ ts, acct.fetch = TFetch.tweets ts →
        ∀ i ∈ ts.take 2, i ∈ a.st.twitter) →
      l.foldl (twitterStep u fr ok) a =
        { a with attempted := a.attempted ++ l.map TAcct.name } := by
  induction l with
  | nil => intro a _; simp
  | cons b rest ih =>
    intro a h
    rw [List.foldl_cons]
    have hstep : twitterStep u fr ok a b =
        { a with attempted := a.attempted ++ [b.name] } := by
      cases hf : b.fetch with
      | err => simp [twitterStep, hf]
      | notFound => simp [twitterStep, hf]
      | tweets ts =>
        have hwin : ((ts.take 2).filter fun i => decide (i ∉ a.st.twitter)) = [] :=
          List.filter_eq_nil_iff.mpr fun i hi => by
            simp [h b (List.mem_cons_self _ _) ts hf i hi]
        have hemp : ((ts.take 2).filter
            fun i => decide (i ∉ a.st.twitter)).isEmpty = true := by
          rw [List.isEmpty_iff]
          exact hwin
        simp only [twitterStep, hf]
        rw [if_pos hemp]
    rw [hstep, foldTwitter_attempted_free]
    rw [ih a (fun acct h2 ts hts i hi =>
      h acct (List.mem_cons_of_mem _ h2) ts hts i hi)]
    simp

theorem foldTwitter_absorb (u : String) (ok : String → Nat → Bool)
    (l : List TAcct) :
    ∀ (a : TAccState) (acct : TAcct), acct ∈ l →
      ∀ ts, acct.fetch = TFetch.tweets ts →
      ∀ i ∈ ts.take 2, i ∈ (l.foldl (twitterStep u true ok) a).st.twitter := by
  induction l with
  | nil => intro a acct h; cases h
  | cons b rest ih =>
    intro a acct hmem ts hts i hi
    rw [List.foldl_cons]
    rcases List.mem_cons.mp hmem with heq | hmem'
    · subst heq
      apply foldTwitter_st_twitter_mono
      by_cases hin : i ∈ a.st.twitter
      · exact twitterStep_st_twitter_mono u true ok a acct i hin
      · have hw : i ∈ (ts.take 2).filter fun j => decide (j ∉ a.st.twitter) := by
          simp [hi, hin]
        have hne : ¬((ts.take 2).filter
            fun j => decide (j ∉ a.st.twitter)).isEmpty = true := by
          intro hemp
          rw [List.isEmpty_iff.mp hemp] at hw
          cases hw
        simp only [twitterStep, hts]
        rw [if_neg hne]
        show i ∈ (notifyRun u true ok a.st.twitter
          ((ts.take 2).filter fun j => decide (j ∉ a.st.twitter))).seen
        rw [notifyRun_seen_mem]
        exact Or.inr ⟨hw, Or.inl rfl⟩
    · exact ih _ acct hmem' ts hts i hi

/-! ### Sorting facts about `fetch_latest_posts` -/

theorem fetch_latest_posts_length (pages : List Page) :
    (fetch_latest_posts pages).length ≤ 10 := by
  rw [fetch_latest_posts]
  exact List.length_take_le 10 _

theorem fetch_latest_posts_subset (pages : List Page) (p : PPost)
    (h : p ∈ fetch_latest_posts pages) : p ∈ lastPage pages := by
  rw [fetch_latest_posts] at h
  exact (List.perm_insertionSort descById (lastPage pages)).mem_iff.mp
    (List.mem_of_mem_take h)

theorem fetch_latest_posts_sorted (pages : List Page)
    (h : ((lastPage pages).map PPost.id).Nodup) :
    (fetch_latest_posts pages).Sorted fun a b => b.id < a.id := by
  have hs : ((lastPage pages).insertionSort descById).Sorted descById :=
    List.sorted_insertionSort descById _
  have hperm := List.perm_insertionSort descById (lastPage pages)
  have hnd2 : (((lastPage pages).insertionSort descById).map PPost.id).Nodup :=
    ((hperm.map PPost.id).nodup_iff).mpr h
  have hnd : ((lastPage pages).insertionSort descById).Pairwise
      fun a b => a.id ≠ b.id :=
    List.pairwise_map.mp hnd2
  have hcomb : ((lastPage pages).insertionSort descById).Pairwise
      fun a b => b.id < a.id :=
    (hs.and hnd).imp fun hab => lt_of_le_of_ne hab.1 hab.2.symm
  rw [fetch_latest_posts]
  exact List.Pairwise.sublist (List.take_sublist 10 _) hcomb

theorem phase1_gourmet_sorted (cfg : PConfig) (posts : List PPost)
    (s0 : Finset Nat) (hs : posts.Sorted fun a b => b.id < a.id) :
    ((phase1 cfg s0 posts).gourmet).Sorted fun a b => b.id < a.id :=
  List.Pairwise.sublist (phase1_gourmet_sublist cfg posts s0) hs

theorem phase1_pubPosts_sorted (cfg : PConfig) (posts : List PPost)
    (s0 : Finset Nat) (hs : posts.Sorted fun a b => b.id < a.id) :
    ((phase1 cfg s0 posts).pubPosts).Sorted fun a b => b.id < a.id :=
  List.Pairwise.sublist (phase1_pubPosts_sublist cfg posts s0) hs

/-! ### Claim-level helper lemmas -/

theorem tierGourmet_iff (cfg : PConfig) (p : PPost) (t : Nat)
    (h : cfg.targetTierId = some t) :
    tierGourmet cfg p = true ↔ t ∈ p.tiers := by
  rw [tierGourmet, h]
  simp

theorem tierPublic_iff (cfg : PConfig) (p : PPost) (l : Nat)
    (h : cfg.lowestTierId = some l) :
    tierPublic cfg p = true ↔ p.tiers = [] ∨ l ∈ p.tiers := by
  rw [tierPublic, h]
  simp [List.isEmpty_iff]

/-- A fresh, non-maintenance post with a unique id is never put into the
seen-set by the classification loop. -/
theorem phase1_seen_not_mem (cfg : PConfig) (posts : List PPost)
    (s0 : Finset Nat) (p : PPost) (hnd : (posts.map PPost.id).Nodup)
    (hp : p ∈ posts) (hfresh : p.id ∉ s0) (hm : isMaint p = false) :
    p.id ∉ (phase1 cfg s0 posts).seen := by
  rw [phase1_seen_mem]
  rintro (h | ⟨q, hq, hmq, hid⟩)
  · exact hfresh h
  · exact maint_ne_of_nodup hnd hp hm q hq hmq hid

theorem not_mem_gourmet_ids (cfg : PConfig) (posts : List PPost)
    (s0 : Finset Nat) (p : PPost) (hnd : (posts.map PPost.id).Nodup)
    (hp : p ∈ posts) (hng : tierGourmet cfg p = false) :
    p.id ∉ (phase1 cfg s0 posts).gourmet.map PPost.id := by
  rw [List.mem_map]
  rintro ⟨q, hq, hid⟩
  have hs := phase1_gourmet_sound cfg posts s0 q hq
  have heq := id_inj_of_nodup hnd hp hs.1 hid
  have htg := hs.2.2
  rw [heq] at htg
  simp [hng] at htg

theorem not_mem_pubPosts_ids (cfg : PConfig) (posts : List PPost)
    (s0 : Finset Nat) (p : PPost) (hnd : (posts.map PPost.id).Nodup)
    (hp : p ∈ posts)
    (hnp : tierGourmet cfg p = true ∨ tierPublic cfg p = false) :
    p.id ∉ (phase1 cfg s0 posts).pubPosts.map PPost.id := by
  rw [List.mem_map]
  rintro ⟨q, hq, hid⟩
  have hs := phase1_pubPosts_sound cfg posts s0 q hq
  have heq := id_inj_of_nodup hnd hp hs.1 hid
  rcases hnp with hnp | hnp
  · have htg := hs.2.2.1
    rw [heq] at htg
    simp [hnp] at htg
  · have htp := hs.2.2.2
    rw [heq] at htp
    simp [hnp] at htp

/-- A maintenance post's id never appears among the ids of either branch
list (given unique ids). -/
theorem maint_not_mem_branch_ids (cfg : PConfig) (posts : List PPost)
    (s0 : Finset Nat) (p : PPost) (hnd : (posts.map PPost.id).Nodup)
    (hp : p ∈ posts) (hm : isMaint p = true) :
    p.id ∉ (phase1 cfg s0 posts).gourmet.map PPost.id ∧
      p.id ∉ (phase1 cfg s0 posts).pubPosts.map PPost.id := by
  constructor
  · rw [List.mem_map]
    rintro ⟨q, hq, hid⟩
    have hs := phase1_gourmet_sound cfg posts s0 q hq
    have heq := id_inj_of_nodup hnd hp hs.1 hid
    have hmq := hs.2.1
    rw [heq] at hmq
    simp [hm] at hmq
  · rw [List.mem_map]
    rintro ⟨q, hq, hid⟩
    have hs := phase1_pubPosts_sound cfg posts s0 q hq
    have heq := id_inj_of_nodup hnd hp hs.1 hid
    have hmq := hs.2.1
    rw [heq] at hmq
    simp [hm] at hmq

/-- Every webhook attempt logged for an id outside both branch id lists is
impossible: such an id is never handed to `send_discord_notification`. -/
theorem log_no_entry (cfg : PConfig) (fr : Bool) (ok : String → Nat → Bool)
    (posts : List PPost) (s0 : Finset Nat) (i : Nat)
    (hg : i ∉ (phase1 cfg s0 posts).gourmet.map PPost.id)
    (hp : i ∉ (phase1 cfg s0 posts).pubPosts.map PPost.id) :
    ∀ d ∈ (check_new_posts cfg fr ok posts s0).log, d.pid ≠ i := by
  intro d hd hpid
  rcases (check_log_sound cfg fr ok posts s0 d hd).2 with
    ⟨u, _, q, hq, hdq⟩ | ⟨u, _, q, hq, hdq⟩
  · exact hg (List.mem_map.mpr ⟨q, hq, by rw [← hpid, hdq]⟩)
  · exact hp (List.mem_map.mpr ⟨q, hq, by rw [← hpid, hdq]⟩)

/-- Any webhook attempt logged for the id of a post that is not in the
public branch goes to the gourmet destination. -/
theorem log_dest_gourmet (cfg : PConfig) (fr : Bool) (ok : String → Nat → Bool)
    (posts : List PPost) (s0 : Finset Nat) (i : Nat)
    (hp : i ∉ (phase1 cfg s0 posts).pubPosts.map PPost.id) :
    ∀ d ∈ (check_new_posts cfg fr ok posts s0).log, d.pid = i →
      cfg.webhookGourmet = some d.dest := by
  intro d hd hpid
  rcases (check_log_sound cfg fr ok posts s0 d hd).2 with
    ⟨u, hu, q, hq, hdq⟩ | ⟨u, _, q, hq, hdq⟩
  · rw [hdq]
    exact hu
  · exact absurd (List.mem_map.mpr ⟨q, hq, by rw [← hpid, hdq]⟩) hp

/-- Any webhook attempt logged for the id of a post that is not in the
gourmet branch goes to the public destination. -/
theorem log_dest_public (cfg : PConfig) (fr : Bool) (ok : String → Nat → Bool)
    (posts : List PPost) (s0 : Finset Nat) (i : Nat)
    (hg : i ∉ (phase1 cfg s0 posts).gourmet.map PPost.id) :
    ∀ d ∈ (check_new_posts cfg fr ok posts s0).log, d.pid = i →
      cfg.webhookPublic = some d.dest := by
  intro d hd hpid
  rcases (check_log_sound cfg fr ok posts s0 d hd).2 with
    ⟨u, _, q, hq, hdq⟩ | ⟨u, hu, q, hq, hdq⟩
  · exact absurd (List.mem_map.mpr ⟨q, hq, by rw [← hpid, hdq]⟩) hg
  · rw [hdq]
    exact hu

theorem unset_gourmet_not_mem (cfg : PConfig) (fr : Bool)
    (ok : String → Nat → Bool) (posts : List PPost) (s : Finset Nat) (p : PPost)
    (hwg : cfg.webhookGourmet = none) (htg : tierGourmet cfg p = true)
    (hnd : (posts.map PPost.id).Nodup) (hp : p ∈ posts)
    (hm : isMaint p = false) (hfresh : p.id ∉ s) :
    p.id ∉ (check_new_posts cfg fr ok posts s).mem ∧
      p.id ∉ (check_new_posts cfg fr ok posts s).disk := by
  have hmem : p.id ∉ (check_new_posts cfg fr ok posts s).mem := by
    rw [check_mem_iff]
    rintro (h | ⟨u, hu, _, _⟩ | ⟨u, _, hin, _⟩)
    · exact phase1_seen_not_mem cfg posts s p hnd hp hfresh hm h
    · rw [hwg] at hu
      cases hu
    · exact not_mem_pubPosts_ids cfg posts s p hnd hp (Or.inl htg) hin
  refine ⟨hmem, ?_⟩
  rcases check_disk_cases cfg fr ok posts s with hdk | hdk
  · rw [hdk]
    exact hfresh
  · rw [hdk]
    exact hmem

theorem unset_public_not_mem (cfg : PConfig) (fr : Bool)
    (ok : String → Nat → Bool) (posts : List PPost) (s : Finset Nat) (p : PPost)
    (hwp : cfg.webhookPublic = none) (htg : tierGourmet cfg p = false)
    (hnd : (posts.map PPost.id).Nodup) (hp : p ∈ posts)
    (hm : isMaint p = false) (hfresh : p.id ∉ s) :
    p.id ∉ (check_new_posts cfg fr ok posts s).mem ∧
      p.id ∉ (check_new_posts cfg fr ok posts s).disk := by
  have hmem : p.id ∉ (check_new_posts cfg fr ok posts s).mem := by
    rw [check_mem_iff]
    rintro (h | ⟨u, _, hin, _⟩ | ⟨u, hu, _, _⟩)
    · exact phase1_seen_not_mem cfg posts s p hnd hp hfresh hm h
    · exact not_mem_gourmet_ids cfg posts s p hnd hp htg hin
    · rw [hwp] at hu
      cases hu
  refine ⟨hmem, ?_⟩
  rcases check_disk_cases cfg fr ok posts s with hdk | hdk
  · rw [hdk]
    exact hfresh
  · rw [hdk]
    exact hmem

theorem unset_gourmet_log (cfg : PConfig) (fr : Bool) (ok : String → Nat → Bool)
    (posts : List PPost) (s : Finset Nat) (p : PPost)
    (hwg : cfg.webhookGourmet = none) (htg : tierGourmet cfg p = true)
    (hnd : (posts.map PPost.id).Nodup) (hp : p ∈ posts) :
    ∀ d ∈ (check_new_posts cfg fr ok posts s).log, d.pid ≠ p.id := by
  intro d hd hpid
  rcases (check_log_sound cfg fr ok posts s d hd).2 with
    ⟨u, hu, _⟩ | ⟨u, _, q, hq, hdq⟩
  · rw [hwg] at hu
    cases hu
  · exact not_mem_pubPosts_ids cfg posts s p hnd hp (Or.inl htg)
      (List.mem_map.mpr ⟨q, hq, by rw [hdq] at hpid; exact hpid⟩)

theorem unset_public_log (cfg : PConfig) (fr : Bool) (ok : String → Nat → Bool)
    (posts : List PPost) (s : Finset Nat) (p : PPost)
    (hwp : cfg.webhookPublic = none) (htg : tierGourmet cfg p = false)
    (hnd : (posts.map PPost.id).Nodup) (hp : p ∈ posts) :
    ∀ d ∈ (check_new_posts cfg fr ok posts s).log, d.pid ≠ p.id := by
  intro d hd hpid
  rcases (check_log_sound cfg fr ok posts s d hd).2 with
    ⟨u, _, q, hq, hdq⟩ | ⟨u, hu, _⟩
  · exact not_mem_gourmet_ids cfg posts s p hnd hp htg
      (List.mem_map.mpr ⟨q, hq, by rw [hdq] at hpid; exact hpid⟩)
  · rw [hwp] at hu
    cases hu

/-- A fetch failure for the first account leaves the processing of the
remaining accounts exactly as it would have been without that account,
apart from the account being recorded as checked. -/
theorem twitter_err_head (u : String) (fr : Bool) (ok : String → Nat → Bool)
    (nm : String) (rest : List TAcct) (st d0 : DState) :
    check_twitter_new_posts u fr ok (⟨nm, TFetch.err⟩ :: rest) st d0 =
      { check_twitter_new_posts u fr ok rest st d0 with
          attempted := nm :: rest.map TAcct.name } := by
  unfold check_twitter_new_posts
  rw [List.foldl_cons]
  have hstep : twitterStep u fr ok ⟨st, d0, [], []⟩ ⟨nm, TFetch.err⟩ =
      { (⟨st, d0, [], []⟩ : TAccState) with attempted := [nm] } := rfl
  rw [hstep, foldTwitter_attempted_free]
  simp

theorem runDiscord_st_def (pu tu : String) (fr : Bool)
    (ok : String → Nat → Bool) (il : List Nat) (accts : List TAcct)
    (st0 : DState) :
    (runDiscord pu tu fr ok il accts st0).1 =
      (check_twitter_new_posts tu fr ok accts
        (check_pixiv_new_posts pu fr ok il st0 st0).mem
        (check_pixiv_new_posts pu fr ok il st0 st0).disk).st := rfl

theorem runDiscord_disk_def (pu tu : String) (fr : Bool)
    (ok : String → Nat → Bool) (il : List Nat) (accts : List TAcct)
    (st0 : DState) :
    (runDiscord pu tu fr ok il accts st0).2.1 =
      (check_twitter_new_posts tu fr ok accts
        (check_pixiv_new_posts pu fr ok il st0 st0).mem
        (check_pixiv_new_posts pu fr ok il st0 st0).disk).disk := rfl

theorem runDiscord_log_def (pu tu : String) (fr : Bool)
    (ok : String → Nat → Bool) (il : List Nat) (accts : List TAcct)
    (st0 : DState) :
    (runDiscord pu tu fr ok il accts st0).2.2 =
      (check_pixiv_new_posts pu fr ok il st0 st0).log ++
      (check_twitter_new_posts tu fr ok accts
        (check_pixiv_new_posts pu fr ok il st0 st0).mem
        (check_pixiv_new_posts pu fr ok il st0 st0).disk).log := rfl

theorem branchStage_nil (w : Option String) (fr : Bool)
    (ok : String → Nat → Bool) (seen : Finset Nat) :
    branchStage w fr ok seen [] = ⟨seen, []⟩ := by
  cases w <;> rfl

theorem checkTwitter_all_seen (u : String) (fr : Bool)
    (ok : String → Nat → Bool) (accts : List TAcct) (st d0 : DState)
    (h : ∀ acct ∈ accts, ∀ ts, acct.fetch = TFetch.tweets ts →
      ∀ i ∈ ts.take 2, i ∈ st.twitter) :
    check_twitter_new_posts u fr ok accts st d0 =
      ⟨st, d0, [], accts.map TAcct.name⟩ := by
  unfold check_twitter_new_posts
  rw [foldTwitter_all_seen u fr ok accts ⟨st, d0, [], []⟩ h]
  rfl

/-! ## The claims -/

/-- Claim C4: for a new membership-site post outside the maintenance window,
a tier-set containing the restricted (target) tier id routes the post only
to the restricted destination; otherwise an empty tier-set or one
containing the public (lowest) tier id routes only to the public
destination; a post matching neither branch is routed nowhere, is not
marked seen and gets no webhook attempt; no post is in both branches. -/
theorem claim_c4_tier_routing (cfg : PConfig) (fr : Bool)
    (ok : String → Nat → Bool) (posts : List PPost) (s0 : Finset Nat)
    (t l : Nat) (p : PPost)
    (htc : cfg.targetTierId = some t) (hlc : cfg.lowestTierId = some l)
    (hnd : (posts.map PPost.id).Nodup) (hp : p ∈ posts)
    (hfresh : p.id ∉ s0) (hm : isMaint p = false) :
    (t ∈ p.tiers →
      p ∈ (phase1 cfg s0 posts).gourmet ∧
      p ∉ (phase1 cfg s0 posts).pubPosts ∧
      ∀ d ∈ (check_new_posts cfg fr ok posts s0).log, d.pid = p.id →
        cfg.webhookGourmet = some d.dest) ∧
    (t ∉ p.tiers → (p.tiers = [] ∨ l ∈ p.tiers) →
      p ∈ (phase1 cfg s0 posts).pubPosts ∧
      p ∉ (phase1 cfg s0 posts).gourmet ∧
      ∀ d ∈ (check_new_posts cfg fr ok posts s0).log, d.pid = p.id →
        cfg.webhookPublic = some d.dest) ∧
    (t ∉ p.tiers → p.tiers ≠ [] → l ∉ p.tiers →
      p ∉ (phase1 cfg s0 posts).gourmet ∧
      p ∉ (phase1 cfg s0 posts).pubPosts ∧
      p.id ∉ (check_new_posts cfg fr ok posts s0).mem ∧
      p.id ∉ (check_new_posts cfg fr ok posts s0).disk ∧
      ∀ d ∈ (check_new_posts cfg fr ok posts s0).log, d.pid ≠ p.id) ∧
    ∀ q : PPost, ¬(q ∈ (phase1 cfg s0 posts).gourmet ∧
      q ∈ (phase1 cfg s0 posts).pubPosts) := by
  refine ⟨?_, ?_, ?_, ?_⟩
  · intro ht
    have htg : tierGourmet cfg p = true := (tierGourmet_iff cfg p t htc).mpr ht
    have hG := phase1_gourmet_complete cfg posts s0 p hp
      (maint_ne_of_nodup hnd hp hm) hfresh hm htg
    refine ⟨hG, ?_, ?_⟩
    · intro hP
      exact phase1_branches_disjoint cfg posts s0 p hG hP
    · exact log_dest_gourmet cfg fr ok posts s0 p.id
        (not_mem_pubPosts_ids cfg posts s0 p hnd hp (Or.inl htg))
  · intro ht htp0
    have htg : tierGourmet cfg p = false := by
      cases h2 : tierGourmet cfg p
      · rfl
      · exact absurd ((tierGourmet_iff cfg p t htc).mp h2) ht
    have htp : tierPublic cfg p = true := (tierPublic_iff cfg p l hlc).mpr htp0
    have hP := phase1_pubPosts_complete cfg posts s0 p hp
      (maint_ne_of_nodup hnd hp hm) hfresh hm htg htp
    refine ⟨hP, ?_, ?_⟩
    · intro hG
      exact phase1_branches_disjoint cfg posts s0 p hG hP
    · exact log_dest_public cfg fr ok posts s0 p.id
        (not_mem_gourmet_ids cfg posts s0 p hnd hp htg)
  · intro ht htne htl
    have htg : tierGourmet cfg p = false := by
      cases h2 : tierGourmet cfg p
      · rfl
      · exact absurd ((tierGourmet_iff cfg p t htc).mp h2) ht
    have htp : tierPublic cfg p = false := by
      cases h2 : tierPublic cfg p
      · rfl
      · rcases (tierPublic_iff cfg p l hlc).mp h2 with h3 | h3
        · exact absurd h3 htne
        · exact absurd h3 htl
    have hgids := not_mem_gourmet_ids cfg posts s0 p hnd hp htg
    have hpids := not_mem_pubPosts_ids cfg posts s0 p hnd hp (Or.inr htp)
    have hmem : p.id ∉ (check_new_posts cfg fr ok posts s0).mem := by
      rw [check_mem_iff]
      rintro (h | ⟨u, _, hin, _⟩ | ⟨u, _, hin, _⟩)
      · exact phase1_seen_not_mem cfg posts s0 p hnd hp hfresh hm h
      · exact hgids hin
      · exact hpids hin
    refine ⟨?_, ?_, hmem, ?_, ?_⟩
    · intro hG
      exact hgids (List.mem_map.mpr ⟨p, hG, rfl⟩)
    · intro hP
      exact hpids (List.mem_map.mpr ⟨p, hP, rfl⟩)
    · rcases check_disk_cases cfg fr ok posts s0 with hdk | hdk
      · rw [hdk]
        exact hfresh
      · rw [hdk]
        exact hmem
    · exact log_no_entry cfg fr ok posts s0 p.id hgids hpids
  · rintro q ⟨hG, hP⟩
    exact phase1_branches_disjoint cfg posts s0 q hG hP

/-- Witness for C4: a concrete post carrying the restricted tier id is
classified into the gourmet branch. -/
theorem claim_c4_tier_routing_witness :
    (⟨7, none, [1]⟩ : PPost) ∈
      (phase1 ⟨some 1, some 2, some ("g"), some ("p")⟩ ∅ [⟨7, none, [1]⟩]).gourmet :=
  ((claim_c4_tier_routing ⟨some 1, some 2, some ("g"), some ("p")⟩ false
      (fun _ _ => true) [⟨7, none, [1]⟩] ∅ 1 2 ⟨7, none, [1]⟩
      rfl rfl (by decide) (by decide) (by decide) rfl).1 (by decide)).1

/-- Claim C5: a new membership-site post whose publish time is source-local
(KST) 20:30 or 20:31 is marked seen in the in-memory set and never handed
to any webhook, for every tier-set and every value of the first-run flag. -/
theorem claim_c5_maintenance_window (cfg : PConfig) (fr : Bool)
    (ok : String → Nat → Bool) (posts : List PPost) (s0 : Finset Nat)
    (p : PPost) (hp : p ∈ posts) (hnd : (posts.map PPost.id).Nodup)
    (ht : p.pubKst = some (20, 30) ∨ p.pubKst = some (20, 31)) :
    p.id ∈ (check_new_posts cfg fr ok posts s0).mem ∧
      ∀ d ∈ (check_new_posts cfg fr ok posts s0).log, d.pid ≠ p.id := by
  have hm : isMaint p = true := by
    rcases ht with h | h <;> simp [isMaint, h]
  constructor
  · rw [check_mem_iff]
    exact Or.inl ((phase1_seen_mem cfg posts s0 p.id).mpr
      (Or.inr ⟨p, hp, hm, rfl⟩))
  · have h2 := maint_not_mem_branch_ids cfg posts s0 p hnd hp hm
    exact log_no_entry cfg fr ok posts s0 p.id h2.1 h2.2

/-- Witness for C5: a concrete 20:30 KST post with a qualifying tier is
marked seen on a non-first run. -/
theorem claim_c5_maintenance_window_witness :
    (9 : Nat) ∈ (check_new_posts ⟨some 1, some 2, some ("g"), some ("p")⟩ false
      (fun _ _ => true) [⟨9, some (20, 30), [1]⟩] (∅ : Finset Nat)).mem :=
  (claim_c5_maintenance_window ⟨some 1, some 2, some ("g"), some ("p")⟩ false
    (fun _ _ => true) [⟨9, some (20, 30), [1]⟩] ∅ ⟨9, some (20, 30), [1]⟩
    (by decide) (by decide) (Or.inl rfl)).1

/-- Claim C9: `fetch_latest_posts` returns at most 10 posts, all taken from
the final pagination batch, sorted strictly descending by integer id (the
final batch having pairwise distinct ids), and consequently both tier
branch lists built from such a fetch are in newest-id-first order. -/
theorem claim_c9_fetch_sorted (pages : List Page) (cfg : PConfig)
    (s0 : Finset Nat) (hnd : ((lastPage pages).map PPost.id).Nodup) :
    (fetch_latest_posts pages).length ≤ 10 ∧
    (∀ p ∈ fetch_latest_posts pages, p ∈ lastPage pages) ∧
    (fetch_latest_posts pages).Sorted (fun a b => b.id < a.id) ∧
    ((phase1 cfg s0 (fetch_latest_posts pages)).gourmet).Sorted
      (fun a b => b.id < a.id) ∧
    ((phase1 cfg s0 (fetch_latest_posts pages)).pubPosts).Sorted
      (fun a b => b.id < a.id) := by
  have hs := fetch_latest_posts_sorted pages hnd
  exact ⟨fetch_latest_posts_length pages,
    fun p hp => fetch_latest_posts_subset pages p hp, hs,
    phase1_gourmet_sorted cfg (fetch_latest_posts pages) s0 hs,
    phase1_pubPosts_sorted cfg (fetch_latest_posts pages) s0 hs⟩

/-- Witness for C9: a concrete two-page fetch yields a strictly descending
result. -/
theorem claim_c9_fetch_sorted_witness :
    (fetch_latest_posts
      [⟨[⟨3, none, []⟩], true⟩, ⟨[⟨5, none, []⟩, ⟨9, none, []⟩], false⟩]).Sorted
      (fun a b => b.id < a.id) :=
  (claim_c9_fetch_sorted
    [⟨[⟨3, none, []⟩], true⟩, ⟨[⟨5, none, []⟩, ⟨9, none, []⟩], false⟩]
    ⟨none, none, none, none⟩ ∅ (by decide)).2.2.1

/-- Claim C10: when the destination webhook for a tier branch is unset, a
new post classified into that branch is neither notified nor marked seen —
first run included — and stays pending across any sequence of such runs. -/
theorem claim_c10_unset_webhook (cfg : PConfig) (posts : List PPost)
    (p : PPost) (hnd : (posts.map PPost.id).Nodup) (hp : p ∈ posts)
    (hm : isMaint p = false) :
    (cfg.webhookGourmet = none → tierGourmet cfg p = true →
      ∀ (fr : Bool) (ok : String → Nat → Bool) (s : Finset Nat), p.id ∉ s →
        p.id ∉ (check_new_posts cfg fr ok posts s).mem ∧
        p.id ∉ (check_new_posts cfg fr ok posts s).disk ∧
        ∀ d ∈ (check_new_posts cfg fr ok posts s).log, d.pid ≠ p.id) ∧
    (cfg.webhookGourmet = none → tierGourmet cfg p = true →
      ∀ (runs : List (Bool × (String → Nat → Bool))) (s : Finset Nat),
        p.id ∉ s → p.id ∉ diskIter cfg posts runs s) ∧
    (cfg.webhookPublic = none → tierGourmet cfg p = false →
      tierPublic cfg p = true →
      ∀ (fr : Bool) (ok : String → Nat → Bool) (s : Finset Nat), p.id ∉ s →
        p.id ∉ (check_new_posts cfg fr ok posts s).mem ∧
        p.id ∉ (check_new_posts cfg fr ok posts s).disk ∧
        ∀ d ∈ (check_new_posts cfg fr ok posts s).log, d.pid ≠ p.id) ∧
    (cfg.webhookPublic = none → tierGourmet cfg p = false →
      tierPublic cfg p = true →
      ∀ (runs : List (Bool × (String → Nat → Bool))) (s : Finset Nat),
        p.id ∉ s → p.id ∉ diskIter cfg posts runs s) := by
  refine ⟨?_, ?_, ?_, ?_⟩
  · intro hwg htg fr ok s hfresh
    have h1 := unset_gourmet_not_mem cfg fr ok posts s p hwg htg hnd hp hm hfresh
    exact ⟨h1.1, h1.2, unset_gourmet_log cfg fr ok posts s p hwg htg hnd hp⟩
  · intro hwg htg runs
    induction runs with
    | nil => intro s hs; exact hs
    | cons r rs ih =>
      intro s hs
      rw [diskIter, List.foldl_cons]
      exact ih _
        ((unset_gourmet_not_mem cfg r.1 r.2 posts s p hwg htg hnd hp hm hs).2)
  · intro hwp htg _ fr ok s hfresh
    have h1 := unset_public_not_mem cfg fr ok posts s p hwp htg hnd hp hm hfresh
    exact ⟨h1.1, h1.2, unset_public_log cfg fr ok posts s p hwp htg hnd hp⟩
  · intro hwp htg _ runs
    induction runs with
    | nil => intro s hs; exact hs
    | cons r rs ih =>
      intro s hs
      rw [diskIter, List.foldl_cons]
      exact ih _
        ((unset_public_not_mem cfg r.1 r.2 posts s p hwp htg hnd hp hm hs).2)

/-- Witness for C10: with the gourmet webhook unset, a concrete
restricted-tier post is not persisted even on a first run. -/
theorem claim_c10_unset_webhook_witness :
    (7 : Nat) ∉ (check_new_posts ⟨some 1, some 2, none, some ("p")⟩ true
      (fun _ _ => true) [⟨7, none, [1]⟩] (∅ : Finset Nat)).disk :=
  ((claim_c10_unset_webhook ⟨some 1, some 2, none, some ("p")⟩ [⟨7, none, [1]⟩]
      ⟨7, none, [1]⟩ (by decide) (by decide) rfl).1 rfl (by decide) true
      (fun _ _ => true) ∅ (by decide)).2.1

/-- Counterexample to C1 as stated: on a non-first run the maintenance-window
post 60 ends in the persisted seen-set although it was never delivered to
any webhook (every logged attempt concerns post 61). -/
theorem claim_c1_counterexample :
    (60 : Nat) ∈ (check_new_posts ⟨some 1, some 2, some ("g"), some ("p")⟩ false
        (fun _ _ => true)
        [⟨60, some (20, 30), [1]⟩, ⟨61, some (12, 0), []⟩]
        ({50} : Finset Nat)).disk ∧
      ∀ d ∈ (check_new_posts ⟨some 1, some 2, some ("g"), some ("p")⟩ false
        (fun _ _ => true)
        [⟨60, some (20, 30), [1]⟩, ⟨61, some (12, 0), []⟩]
        ({50} : Finset Nat)).log, d.pid ≠ 60 :=
  ⟨by decide, by decide⟩

/-- Claim C1 (amended): a fresh identifier reaches the persisted seen-set
only if the run was a first run, the post was successfully delivered (2xx),
or — membership checker only — the post was suppressed as a
maintenance-window post; conversely every successfully delivered identifier
is in the in-memory and the persisted set.  A post whose delivery failed is
therefore absent after the run.  Stated for both checkers. -/
theorem claim_c1_amended (cfg : PConfig) (fr : Bool) (ok : String → Nat → Bool)
    (posts : List PPost) (s0 : Finset Nat) (i : Nat)
    (u2 : String) (il : List Nat) (st : DState)
    (hfresh : i ∉ s0) (hfresh2 : i ∉ st.pixiv) :
    (i ∈ (check_new_posts cfg fr ok posts s0).disk →
      fr = true ∨
      (∃ d ∈ (check_new_posts cfg fr ok posts s0).log,
        d.pid = i ∧ d.ok = true) ∨
      ∃ p ∈ posts, p.id = i ∧ isMaint p = true) ∧
    (∀ d ∈ (check_new_posts cfg fr ok posts s0).log, d.ok = true →
      d.pid ∈ (check_new_posts cfg fr ok posts s0).mem ∧
      d.pid ∈ (check_new_posts cfg fr ok posts s0).disk) ∧
    (i ∈ (check_pixiv_new_posts u2 fr ok il st st).disk.pixiv →
      fr = true ∨
      ∃ d ∈ (check_pixiv_new_posts u2 fr ok il st st).log,
        d.pid = i ∧ d.ok = true) ∧
    (∀ d ∈ (check_pixiv_new_posts u2 fr ok il st st).log, d.ok = true →
      d.pid ∈ (check_pixiv_new_posts u2 fr ok il st st).disk.pixiv) := by
  refine ⟨?_, ?_, ?_, ?_⟩
  · intro hdisk
    cases hfr : fr with
    | true => exact Or.inl rfl
    | false =>
      refine Or.inr ?_
      rw [hfr] at hdisk
      have hmem : i ∈ (check_new_posts cfg false ok posts s0).mem := by
        rcases check_disk_cases cfg false ok posts s0 with hdk | hdk
        · rw [hdk] at hdisk
          exact absurd hdisk hfresh
        · rw [hdk] at hdisk
          exact hdisk
      rw [check_mem_iff] at hmem
      rcases hmem with h | ⟨u, hu, hin, hc⟩ | ⟨u, hu, hin, hc⟩
      · rw [phase1_seen_mem] at h
        rcases h with h | ⟨p, hp2, hmq, hid⟩
        · exact absurd h hfresh
        · exact Or.inr ⟨p, hp2, hid, hmq⟩
      · rcases hc with hc | hok
        · cases hc
        · rcases List.mem_map.mp hin with ⟨q, hq, hqid⟩
          refine Or.inl ⟨⟨u, q.id, ok u q.id⟩,
            check_log_gourmet_complete cfg ok posts s0 u q hu hq, hqid, ?_⟩
          rw [hqid]
          exact hok
      · rcases hc with hc | hok
        · cases hc
        · rcases List.mem_map.mp hin with ⟨q, hq, hqid⟩
          refine Or.inl ⟨⟨u, q.id, ok u q.id⟩,
            check_log_pubPosts_complete cfg ok posts s0 u q hu hq, hqid, ?_⟩
          rw [hqid]
          exact hok
  · intro d hd hok
    have hs := check_log_sound cfg fr ok posts s0 d hd
    rcases hs.2 with ⟨u, hu, q, hq, hdq⟩ | ⟨u, hu, q, hq, hdq⟩
    · have hdpid : d.pid = q.id := by rw [hdq]
      have hdok : ok u q.id = true := by
        rw [hdq] at hok
        exact hok
      have hmem : q.id ∈ (check_new_posts cfg fr ok posts s0).mem := by
        rw [check_mem_iff]
        exact Or.inr (Or.inl ⟨u, hu, List.mem_map.mpr ⟨q, hq, rfl⟩, Or.inr hdok⟩)
      have hdm := check_disk_eq_mem cfg fr ok posts s0
        (Or.inl (List.ne_nil_of_mem hq))
      rw [hdpid, hdm]
      exact ⟨hmem, hmem⟩
    · have hdpid : d.pid = q.id := by rw [hdq]
      have hdok : ok u q.id = true := by
        rw [hdq] at hok
        exact hok
      have hmem : q.id ∈ (check_new_posts cfg fr ok posts s0).mem := by
        rw [check_mem_iff]
        exact Or.inr (Or.inr ⟨u, hu, List.mem_map.mpr ⟨q, hq, rfl⟩, Or.inr hdok⟩)
      have hdm := check_disk_eq_mem cfg fr ok posts s0
        (Or.inr (List.ne_nil_of_mem hq))
      rw [hdpid, hdm]
      exact ⟨hmem, hmem⟩
  · intro hdisk
    cases hfr : fr with
    | true => exact Or.inl rfl
    | false =>
      rw [hfr] at hdisk
      rw [checkPixiv_disk_self, checkPixiv_mem_pixiv] at hdisk
      rcases hdisk with h | ⟨h1, hc⟩
      · exact absurd h hfresh2
      · rcases hc with hc | hok
        · cases hc
        · refine Or.inr ⟨⟨u2, i, ok u2 i⟩, ?_, rfl, hok⟩
          rw [checkPixiv_log, if_neg (by simp : ¬(false = true))]
          exact List.mem_map.mpr
            ⟨i, List.mem_filter.mpr ⟨h1, by simpa using hfresh2⟩, rfl⟩
  · intro d hd hok
    rw [checkPixiv_log] at hd
    cases hfr : fr with
    | true =>
      rw [hfr] at hd
      simp at hd
    | false =>
      rw [hfr] at hd
      rw [if_neg (by simp : ¬(false = true))] at hd
      rcases List.mem_map.mp hd with ⟨j, hj, hdj⟩
      rcases List.mem_filter.mp hj with ⟨hj2, _⟩
      have hdpid : d.pid = j := by rw [← hdj]
      have hjok : ok u2 j = true := by
        rw [← hdj] at hok
        exact hok
      rw [checkPixiv_disk_self, checkPixiv_mem_pixiv, hdpid]
      exact Or.inr ⟨hj2, Or.inr hjok⟩

/-- Witness for C1 (amended): a concrete successfully delivered post is
persisted. -/
theorem claim_c1_amended_witness :
    (61 : Nat) ∈ (check_new_posts ⟨some 1, some 2, some ("g"), some ("p")⟩ false
      (fun _ _ => true) [⟨61, some (12, 0), []⟩] ({50} : Finset Nat)).disk :=
  ((claim_c1_amended ⟨some 1, some 2, some ("g"), some ("p")⟩ false
      (fun _ _ => true) [⟨61, some (12, 0), []⟩] {50} 61 ("pu") [] ⟨∅, ∅⟩
      (by decide) (by decide)).2.1 ⟨"p", 61, true⟩ (by decide) rfl).2

/-- Claim C2 exposes a code bug: a run whose only new post falls in the
maintenance window marks it seen in memory but never calls
`save_notified_ids` — line 178 guards the save on the branch lists being
nonempty — so the persisted store is unchanged and the post is
re-processed every later run, against the code's own `Mark as seen so we
don't check again` comment and the spec's persistence rule. -/
theorem claim_c2_persistence_bug :
    (9 : Nat) ∈ (check_new_posts ⟨some 1, some 2, some ("g"), some ("p")⟩ false
        (fun _ _ => true) [⟨9, some (20, 30), []⟩] ({1} : Finset Nat)).mem ∧
    (check_new_posts ⟨some 1, some 2, some ("g"), some ("p")⟩ false
        (fun _ _ => true) [⟨9, some (20, 30), []⟩] ({1} : Finset Nat)).disk =
      {1} :=
  ⟨by decide, by decide⟩

/-- Counterexample to C3 as stated: on a first run with an empty store, a
fetched membership post whose tier-set matches neither configured branch is
absent from the persisted seen-set after the run. -/
theorem claim_c3_counterexample :
    (5 : Nat) ∉ (check_new_posts ⟨some 1, some 2, some ("g"), some ("p")⟩ true
      (fun _ _ => true) [⟨5, none, [9]⟩] (∅ : Finset Nat)).disk := by
  decide

/-- Claim C3 (amended): on a first run zero webhook deliveries occur in
either checker; every fetched illustration id (latest-2 window) and every
fetched microblog id (latest-2 window per account) ends in the persisted
seen-set; a membership post is absorbed and persisted when it is classified
into a tier branch whose webhook is configured. -/
theorem claim_c3_first_run_absorption (cfg : PConfig)
    (ok : String → Nat → Bool) (posts : List PPost) (s0 : Finset Nat)
    (pu tu : String) (il : List Nat) (accts : List TAcct) (st0 : DState) :
    (check_new_posts cfg true ok posts s0).log = [] ∧
    (∀ p ∈ posts, (posts.map PPost.id).Nodup → p.id ∉ s0 →
      isMaint p = false →
      ((tierGourmet cfg p = true ∧ cfg.webhookGourmet.isSome = true) ∨
       (tierGourmet cfg p = false ∧ tierPublic cfg p = true ∧
         cfg.webhookPublic.isSome = true)) →
      p.id ∈ (check_new_posts cfg true ok posts s0).disk) ∧
    (runDiscord pu tu true ok il accts st0).2.2 = [] ∧
    (∀ i ∈ il.take 2, i ∈ (runDiscord pu tu true ok il accts st0).2.1.pixiv) ∧
    (∀ acct ∈ accts, ∀ ts, acct.fetch = TFetch.tweets ts →
      ∀ i ∈ ts.take 2,
        i ∈ (runDiscord pu tu true ok il accts st0).2.1.twitter) := by
  have hlog : (check_new_posts cfg true ok posts s0).log = [] := by
    rw [check_log_def, branchStage_log, branchStage_log]
    cases cfg.webhookGourmet <;> cases cfg.webhookPublic <;> simp
  have hpix : (check_pixiv_new_posts pu true ok il st0 st0).log = [] := by
    rw [checkPixiv_log]
    simp
  have htwlog : (check_twitter_new_posts tu true ok accts
      (check_pixiv_new_posts pu true ok il st0 st0).mem
      (check_pixiv_new_posts pu true ok il st0 st0).disk).log = [] := by
    unfold check_twitter_new_posts
    rw [foldTwitter_log_fr]
  have hinv := checkPixiv_disk_self pu true ok il st0
  have hdisk_st : (runDiscord pu tu true ok il accts st0).2.1 =
      (runDiscord pu tu true ok il accts st0).1 := by
    rw [runDiscord_disk_def, runDiscord_st_def]
    unfold check_twitter_new_posts
    exact foldTwitter_disk_eq_st tu true ok accts _ hinv
  refine ⟨hlog, ?_, ?_, ?_, ?_⟩
  · intro p hp hnd hfresh hm hroute
    rcases hroute with ⟨htg, hw⟩ | ⟨htg, htp, hw⟩
    · rcases Option.isSome_iff_exists.mp hw with ⟨u, hu⟩
      have hG := phase1_gourmet_complete cfg posts s0 p hp
        (maint_ne_of_nodup hnd hp hm) hfresh hm htg
      rw [check_disk_eq_mem cfg true ok posts s0
        (Or.inl (List.ne_nil_of_mem hG)), check_mem_iff]
      exact Or.inr (Or.inl ⟨u, hu, List.mem_map.mpr ⟨p, hG, rfl⟩, Or.inl rfl⟩)
    · rcases Option.isSome_iff_exists.mp hw with ⟨u, hu⟩
      have hP := phase1_pubPosts_complete cfg posts s0 p hp
        (maint_ne_of_nodup hnd hp hm) hfresh hm htg htp
      rw [check_disk_eq_mem cfg true ok posts s0
        (Or.inr (List.ne_nil_of_mem hP)), check_mem_iff]
      exact Or.inr (Or.inr ⟨u, hu, List.mem_map.mpr ⟨p, hP, rfl⟩, Or.inl rfl⟩)
  · rw [runDiscord_log_def, hpix, htwlog]
    rfl
  · intro i hi
    rw [hdisk_st, runDiscord_st_def]
    unfold check_twitter_new_posts
    rw [foldTwitter_st_pixiv]
    show i ∈ (check_pixiv_new_posts pu true ok il st0 st0).mem.pixiv
    rw [checkPixiv_mem_pixiv]
    exact Or.inr ⟨hi, Or.inl rfl⟩
  · intro acct ha ts hts i hi
    rw [hdisk_st, runDiscord_st_def]
    unfold check_twitter_new_posts
    exact foldTwitter_absorb tu ok accts _ acct ha ts hts i hi

/-- Witness for C3 (amended): a concrete first run absorbs a public-branch
post into the persisted set. -/
theorem claim_c3_first_run_absorption_witness :
    (5 : Nat) ∈ (check_new_posts ⟨some 1, some 2, some ("g"), some ("p")⟩ true
      (fun _ _ => true) [⟨5, none, [1]⟩] (∅ : Finset Nat)).disk :=
  (claim_c3_first_run_absorption ⟨some 1, some 2, some ("g"), some ("p")⟩
      (fun _ _ => true) [⟨5, none, [1]⟩] ∅ ("pu") ("tu") [] [] ⟨∅, ∅⟩).2.1
    ⟨5, none, [1]⟩ (by decide) (by decide) (by decide) rfl
    (Or.inl ⟨by decide, rfl⟩)

/-- Claim C6: on a non-first run, a new post whose webhook delivery fails is
absent from the persisted seen-set after the run, and after a later run in
which delivery of the same post succeeds its identifier is present in the
persisted seen-set.  Stated for the illustration checker and for the
membership checker's restricted branch. -/
theorem claim_c6_retry_on_failure (pu : String) (ok1 ok2 : String → Nat → Bool)
    (il : List Nat) (st0 : DState) (i : Nat)
    (hi : i ∈ il.take 2) (hfresh : i ∉ st0.pixiv)
    (hfail : ok1 pu i = false) (hsucc : ok2 pu i = true)
    (cfg : PConfig) (okp1 okp2 : String → Nat → Bool) (posts : List PPost)
    (s0 : Finset Nat) (t : Nat) (u : String) (p : PPost)
    (htc : cfg.targetTierId = some t) (hwg : cfg.webhookGourmet = some u)
    (hnd : (posts.map PPost.id).Nodup) (hp : p ∈ posts)
    (hpfresh : p.id ∉ s0) (hm : isMaint p = false) (ht : t ∈ p.tiers)
    (hpfail : okp1 u p.id = false) (hpsucc : okp2 u p.id = true) :
    i ∉ (check_pixiv_new_posts pu false ok1 il st0 st0).disk.pixiv ∧
    i ∈ (check_pixiv_new_posts pu false ok2 il
        (check_pixiv_new_posts pu false ok1 il st0 st0).disk
        (check_pixiv_new_posts pu false ok1 il st0 st0).disk).disk.pixiv ∧
    p.id ∉ (check_new_posts cfg false okp1 posts s0).disk ∧
    p.id ∈ (check_new_posts cfg false okp2 posts
        (check_new_posts cfg false okp1 posts s0).disk).disk := by
  have h1 : i ∉ (check_pixiv_new_posts pu false ok1 il st0 st0).disk.pixiv := by
    rw [checkPixiv_disk_self, checkPixiv_mem_pixiv]
    rintro (h | ⟨_, hc | hok⟩)
    · exact hfresh h
    · cases hc
    · rw [hfail] at hok
      cases hok
  have h2 : i ∈ (check_pixiv_new_posts pu false ok2 il
      (check_pixiv_new_posts pu false ok1 il st0 st0).disk
      (check_pixiv_new_posts pu false ok1 il st0 st0).disk).disk.pixiv := by
    rw [checkPixiv_disk_self, checkPixiv_mem_pixiv]
    exact Or.inr ⟨hi, Or.inr hsucc⟩
  have htg : tierGourmet cfg p = true := (tierGourmet_iff cfg p t htc).mpr ht
  have h3 : p.id ∉ (check_new_posts cfg false okp1 posts s0).disk := by
    have hmem : p.id ∉ (check_new_posts cfg false okp1 posts s0).mem := by
      rw [check_mem_iff]
      rintro (h | ⟨u', hu', hin, hc⟩ | ⟨u', _, hin, _⟩)
      · exact phase1_seen_not_mem cfg posts s0 p hnd hp hpfresh hm h
      · rw [hwg] at hu'
        injection hu' with he
        subst he
        rcases hc with hc | hok
        · cases hc
        · rw [hpfail] at hok
          cases hok
      · exact not_mem_pubPosts_ids cfg posts s0 p hnd hp (Or.inl htg) hin
    rcases check_disk_cases cfg false okp1 posts s0 with hdk | hdk
    · rw [hdk]
      exact hpfresh
    · rw [hdk]
      exact hmem
  have hG2 := phase1_gourmet_complete cfg posts
    ((check_new_posts cfg false okp1 posts s0).disk) p hp
    (maint_ne_of_nodup hnd hp hm) h3 hm htg
  have h4 : p.id ∈ (check_new_posts cfg false okp2 posts
      (check_new_posts cfg false okp1 posts s0).disk).disk := by
    rw [check_disk_eq_mem cfg false okp2 posts _
      (Or.inl (List.ne_nil_of_mem hG2)), check_mem_iff]
    exact Or.inr (Or.inl ⟨u, hwg, List.mem_map.mpr ⟨p, hG2, rfl⟩,
      Or.inr hpsucc⟩)
  exact ⟨h1, h2, h3, h4⟩

/-- Witness for C6: after a failed run, a successful second run persists the
concrete post. -/
theorem claim_c6_retry_on_failure_witness :
    (7 : Nat) ∈ (check_new_posts ⟨some 1, some 2, some ("g"), some ("p")⟩ false
      (fun _ _ => true) [⟨7, none, [1]⟩]
      (check_new_posts ⟨some 1, some 2, some ("g"), some ("p")⟩ false
        (fun _ _ => false) [⟨7, none, [1]⟩] (∅ : Finset Nat)).disk).disk :=
  (claim_c6_retry_on_failure ("w") (fun _ _ => false) (fun _ _ => true) [5]
    ⟨∅, ∅⟩ 5 (by decide) (by decide) rfl rfl
    ⟨some 1, some 2, some ("g"), some ("p")⟩ (fun _ _ => false) (fun _ _ => true)
    [⟨7, none, [1]⟩] ∅ 1 ("g") ⟨7, none, [1]⟩ rfl rfl (by decide) (by decide)
    (by decide) rfl (by decide) rfl rfl).2.2.2

/-- Claim C7: when every fetched identifier is already in the corresponding
seen-set, a run of the membership checker and a run of the discord
orchestrator send no webhook request and leave both the in-memory and the
persisted sets exactly as loaded; a second identical membership run is
likewise a no-op. -/
theorem claim_c7_idempotence (cfg : PConfig) (fr : Bool)
    (ok : String → Nat → Bool) (posts : List PPost) (s0 : Finset Nat)
    (pu tu : String) (il : List Nat) (accts : List TAcct) (st0 : DState)
    (hP : ∀ p ∈ posts, p.id ∈ s0)
    (hX : ∀ i ∈ il.take 2, i ∈ st0.pixiv)
    (hT : ∀ acct ∈ accts, ∀ ts, acct.fetch = TFetch.tweets ts →
      ∀ i ∈ ts.take 2, i ∈ st0.twitter) :
    check_new_posts cfg fr ok posts s0 = ⟨s0, s0, []⟩ ∧
    check_new_posts cfg fr ok posts
      (check_new_posts cfg fr ok posts s0).disk = ⟨s0, s0, []⟩ ∧
    (runDiscord pu tu fr ok il accts st0).1 = st0 ∧
    (runDiscord pu tu fr ok il accts st0).2.1 = st0 ∧
    (runDiscord pu tu fr ok il accts st0).2.2 = [] := by
  have h1 := phase1_all_seen cfg posts s0 hP
  have hcheck : check_new_posts cfg fr ok posts s0 = ⟨s0, s0, []⟩ := by
    simp [check_new_posts, h1, branchStage_nil]
  have hds : (check_new_posts cfg fr ok posts s0).disk = s0 := by
    rw [hcheck]
  have hsecond : check_new_posts cfg fr ok posts
      (check_new_posts cfg fr ok posts s0).disk = ⟨s0, s0, []⟩ := by
    rw [hds]
    exact hcheck
  have h2 := checkPixiv_all_seen pu fr ok il st0 st0 hX
  have hm : (check_pixiv_new_posts pu fr ok il st0 st0).mem = st0 := by
    rw [h2]
  have hd : (check_pixiv_new_posts pu fr ok il st0 st0).disk = st0 := by
    rw [h2]
  have hl : (check_pixiv_new_posts pu fr ok il st0 st0).log = [] := by
    rw [h2]
  have h4 : check_twitter_new_posts tu fr ok accts st0 st0 =
      ⟨st0, st0, [], accts.map TAcct.name⟩ :=
    checkTwitter_all_seen tu fr ok accts st0 st0 hT
  refine ⟨hcheck, hsecond, ?_, ?_, ?_⟩
  · rw [runDiscord_st_def, hm, hd, h4]
  · rw [runDiscord_disk_def, hm, hd, h4]
  · rw [runDiscord_log_def, hm, hd, hl, h4]
    rfl

/-- Witness for C7: a concrete all-seen membership run returns the loaded
set unchanged with an empty log. -/
theorem claim_c7_idempotence_witness :
    check_new_posts ⟨some 1, some 2, some ("g"), some ("p")⟩ false
      (fun _ _ => true) [⟨5, none, [1]⟩] ({5} : Finset Nat) =
      ⟨{5}, {5}, []⟩ :=
  (claim_c7_idempotence ⟨some 1, some 2, some ("g"), some ("p")⟩ false
    (fun _ _ => true) [⟨5, none, [1]⟩] {5} ("pu") ("tu") [] [] ⟨∅, ∅⟩
    (by decide) (by simp)
    (by intro acct ha; exact absurd ha (List.not_mem_nil acct))).1

/-- Claim C8: the per-account try/except of the microblog checker makes the
loop visit every configured account regardless of per-account outcomes, and
a failing first account leaves the processing of the remaining accounts
unchanged apart from being recorded as checked. -/
theorem claim_c8_multi_account_isolation (u : String) (fr : Bool)
    (ok : String → Nat → Bool) (accts : List TAcct) (st d0 : DState)
    (nm : String) (rest : List TAcct) :
    (check_twitter_new_posts u fr ok accts st d0).attempted =
      accts.map TAcct.name ∧
    check_twitter_new_posts u fr ok (⟨nm, TFetch.err⟩ :: rest) st d0 =
      { check_twitter_new_posts u fr ok rest st d0 with
          attempted := nm :: rest.map TAcct.name } := by
  constructor
  · unfold check_twitter_new_posts
    rw [foldTwitter_attempted]
    rfl
  · exact twitter_err_head u fr ok nm rest st d0

end Notifier
